import Mathlib

/-!
# Shopping-cart widget (`src/cart.js`)

A shallow embedding of the script and of the built-ins it calls
(`Array.prototype.find`, `filter`, `reduce`, `JSON.stringify`, `JSON.parse`,
`Number.prototype.toFixed`, `sessionStorage`), followed by the properties of the
cart that the specification states.

Modelling conventions.

* `quantity` is only ever produced by the literal `1` and by `++` / `--`, so it is
  an integer; it is held as an `Int` (the arithmetic of `++` and `--` is exact on
  integers of magnitude below `2 ^ 53`).
* `price` comes from `parseFloat`, so it may be `NaN` or an infinity.  A finite
  price is held as the decimal numeral that names it (`Dec`), which is what the
  store holds; its value is the binary64 number nearest to that numeral.
* Arithmetic (`price * quantity`, `total += ...`) and `toFixed(2)` work on binary64
  values (`F64`) with the rounding of IEEE 754: to nearest, ties to even.
* Strings are sequences of Unicode scalar values.
* The DOM is reduced to what the script writes: the markup appended to
  `#cart-items`, the text of `#cart-total`, the text and `display` style of
  `#cart-counter`, and the content of `#toast-container`.  Of the reading of that
  markup by the browser only the `data-id` attribute of the buttons is modelled
  (`dataIdAttr`).
-/

set_option maxRecDepth 100000

namespace CartJs

/-! ## Numbers -/

/-- A finite number, as the decimal `mant / 10 ^ scale` without trailing zeros
after the decimal point. -/
structure Dec where
  mant : Int
  scale : Nat
  canon : scale = 0 ∨ mant % 10 ≠ 0
deriving DecidableEq

/-- The decimal `m / 10 ^ s` brought to the form without trailing zeros. -/
def Dec.norm : Nat → Int → Dec
  | 0, m => ⟨m, 0, Or.inl rfl⟩
  | s + 1, m => if h : m % 10 = 0 then Dec.norm s (m / 10) else ⟨m, s + 1, Or.inr h⟩

/-- An integer as a decimal. -/
def Dec.ofInt (n : Int) : Dec := ⟨n, 0, Or.inl rfl⟩

/-- A JavaScript Number as the cart and the store hold it: `NaN`, an infinity, or
a finite value named by a decimal numeral. -/
inductive JsNum where
  | nan
  | inf (negative : Bool)
  | fin (d : Dec)
deriving DecidableEq

/-- The Number with an integer value. -/
def JsNum.ofInt (n : Int) : JsNum := .fin (Dec.ofInt n)

/-- The test `Number.isFinite`. -/
def JsNum.isFinite : JsNum → Bool
  | .fin _ => true
  | _ => false

/-! ## Decimal digits -/

/-- The character of a decimal digit. -/
def digitChar (d : Nat) : Char := Char.ofNat (48 + d)

/-- The decimal numeral of `n`, most significant digit first; `fuel` bounds the
number of digits. -/
def natDigitsFuel : Nat → Nat → List Char
  | 0, _ => []
  | fuel + 1, n =>
    if n < 10 then [digitChar n] else natDigitsFuel fuel (n / 10) ++ [digitChar (n % 10)]

/-- The decimal numeral of a natural number, without leading zeros. -/
def natDigits (n : Nat) : List Char := natDigitsFuel (n + 1) n

/-- The last `w` decimal digits of `n`, padded with zeros to width `w`. -/
def padDigits : Nat → Nat → List Char
  | 0, _ => []
  | w + 1, n => padDigits w (n / 10) ++ [digitChar (n % 10)]

/-- Text of a finite number in positional notation, as `Number::toString` writes
it for magnitudes from `1e-6` up to `1e21`. -/
def Dec.toText (d : Dec) : List Char :=
  (if d.mant < 0 then ['-'] else []) ++
    natDigits (d.mant.natAbs / 10 ^ d.scale) ++
    (if d.scale = 0 then [] else '.' :: padDigits d.scale (d.mant.natAbs % 10 ^ d.scale))

/-! ## Binary floating point -/

/-- A binary64 value: `NaN`, an infinity, or the finite value
`(-1) ^ negative * mant * 2 ^ exp`.  The operations below produce a finite value
in the form the format stores: `mant < 2 ^ 53`, `-1074 ≤ exp ≤ 971`, and
`2 ^ 52 ≤ mant` unless `exp = -1074` (zero and the subnormal values). -/
inductive F64 where
  | nan
  | inf (negative : Bool)
  | fin (negative : Bool) (mant : Nat) (exp : Int)
deriving DecidableEq

/-- The number of halvings that bring `n` below 2, in at most `fuel` steps. -/
def log2Fuel : Nat → Nat → Nat
  | 0, _ => 0
  | fuel + 1, n => if n < 2 then 0 else log2Fuel fuel (n / 2) + 1

/-- The position of the highest set bit of a positive number. -/
def floorLog2 (n : Nat) : Nat := log2Fuel n n

/-- The integer part of the binary logarithm of `num / den`, both positive. -/
def floorLog2Ratio (num den : Nat) : Int :=
  if den * 2 ^ (floorLog2 num - floorLog2 den) ≤ num * 2 ^ (floorLog2 den - floorLog2 num) then
    (floorLog2 num : Int) - (floorLog2 den : Int)
  else (floorLog2 num : Int) - (floorLog2 den : Int) - 1

/-- The integer nearest to `n / d`, the even one when two are equally near. -/
def roundHalfEven (n d : Nat) : Nat :=
  if 2 * (n % d) < d then n / d
  else if d < 2 * (n % d) then n / d + 1
  else if n / d % 2 = 0 then n / d else n / d + 1

/-- The binary64 value nearest to `± num / den` (`den` positive), the one with the
even significand when two are equally near, an infinity beyond the largest finite
value: the rounding of every arithmetic operation and of the reading of a decimal
numeral. -/
def F64.ofRatio (negative : Bool) (num den : Nat) : F64 :=
  if num = 0 then .fin negative 0 (-1074)
  else
    let k : Int := max (floorLog2Ratio num den - 52) (-1074)
    let m := roundHalfEven (num * 2 ^ (-k).toNat) (den * 2 ^ k.toNat)
    if m = 2 ^ 53 then
      if 971 < k + 1 then .inf negative else .fin negative (2 ^ 52) (k + 1)
    else if 971 < k then .inf negative
    else .fin negative m k

/-- The binary64 value of an integer. -/
def F64.ofInt (n : Int) : F64 := F64.ofRatio (decide (n < 0)) n.natAbs 1

/-- The integer `± m`. -/
def signedInt (negative : Bool) (m : Nat) : Int := if negative then - (m : Int) else (m : Int)

/-- The operator `+` on Numbers. -/
def F64.add : F64 → F64 → F64
  | .nan, _ => .nan
  | _, .nan => .nan
  | .inf a, .inf b => if a = b then .inf a else .nan
  | .inf a, .fin _ _ _ => .inf a
  | .fin _ _ _, .inf b => .inf b
  | .fin s1 m1 e1, .fin s2 m2 e2 =>
    if signedInt s1 (m1 * 2 ^ (e1 - min e1 e2).toNat) +
        signedInt s2 (m2 * 2 ^ (e2 - min e1 e2).toNat) = 0 then
      .fin (s1 && s2) 0 (-1074)
    else
      F64.ofRatio
        (decide (signedInt s1 (m1 * 2 ^ (e1 - min e1 e2).toNat) +
          signedInt s2 (m2 * 2 ^ (e2 - min e1 e2).toNat) < 0))
        ((signedInt s1 (m1 * 2 ^ (e1 - min e1 e2).toNat) +
          signedInt s2 (m2 * 2 ^ (e2 - min e1 e2).toNat)).natAbs * 2 ^ (min e1 e2).toNat)
        (2 ^ (- min e1 e2).toNat)

/-- The operator `*` on Numbers. -/
def F64.mul : F64 → F64 → F64
  | .nan, _ => .nan
  | _, .nan => .nan
  | .inf a, .inf b => .inf (xor a b)
  | .inf a, .fin s m _ => if m = 0 then .nan else .inf (xor a s)
  | .fin s m _, .inf b => if m = 0 then .nan else .inf (xor s b)
  | .fin s1 m1 e1, .fin s2 m2 e2 =>
    F64.ofRatio (xor s1 s2) (m1 * m2 * 2 ^ (e1 + e2).toNat) (2 ^ (- (e1 + e2)).toNat)

instance : Add F64 := ⟨F64.add⟩
instance : Mul F64 := ⟨F64.mul⟩
instance : OfNat F64 0 := ⟨.fin false 0 (-1074)⟩

/-- The binary64 value that a finite decimal numeral denotes. -/
def Dec.toF64 (d : Dec) : F64 := F64.ofRatio (decide (d.mant < 0)) d.mant.natAbs (10 ^ d.scale)

/-- The binary64 value of a Number. -/
def JsNum.toF64 : JsNum → F64
  | .nan => .nan
  | .inf negative => .inf negative
  | .fin d => d.toF64

/-- The numeral `s * 10 ^ p` without the zeros at the end of `s`, in at most `fuel`
steps. -/
def stripZeros : Nat → Nat → Nat → Nat × Nat
  | 0, s, p => (s, p)
  | fuel + 1, s, p => if s % 10 = 0 ∧ s ≠ 0 then stripZeros fuel (s / 10) (p + 1) else (s, p)

/-- The shortest numeral `s * 10 ^ p` that reads back as the value `x` of the
integer `big`, which has `digits` decimal digits: numerals of `k` digits are tried
for `k` counting up; of two that read back, the one nearer to `big` is taken, the
even one when they are equally near. -/
def shortestNumeral (x : F64) (big digits : Nat) : Nat → Nat → Nat × Nat
  | 0, k => (big / 10 ^ (digits - k), digits - k)
  | fuel + 1, k =>
    if F64.ofRatio false (big / 10 ^ (digits - k) * 10 ^ (digits - k)) 1 = x then
      if F64.ofRatio false ((big / 10 ^ (digits - k) + 1) * 10 ^ (digits - k)) 1 = x then
        if big - big / 10 ^ (digits - k) * 10 ^ (digits - k) <
            (big / 10 ^ (digits - k) + 1) * 10 ^ (digits - k) - big then
          (big / 10 ^ (digits - k), digits - k)
        else if (big / 10 ^ (digits - k) + 1) * 10 ^ (digits - k) - big <
            big - big / 10 ^ (digits - k) * 10 ^ (digits - k) then
          (big / 10 ^ (digits - k) + 1, digits - k)
        else if big / 10 ^ (digits - k) % 2 = 0 then (big / 10 ^ (digits - k), digits - k)
        else (big / 10 ^ (digits - k) + 1, digits - k)
      else (big / 10 ^ (digits - k), digits - k)
    else if F64.ofRatio false ((big / 10 ^ (digits - k) + 1) * 10 ^ (digits - k)) 1 = x then
      (big / 10 ^ (digits - k) + 1, digits - k)
    else shortestNumeral x big digits fuel (k + 1)

/-- The text `Number::toString` gives for the numeral `s * 10 ^ p` of a value from
`1e21` up: one digit, the further digits behind a point, and the exponent. -/
def exponentText (s p : Nat) : List Char :=
  match natDigits s with
  | [] => []
  | [d] => d :: 'e' :: '+' :: natDigits p
  | d :: rest => d :: '.' :: (rest ++ 'e' :: '+' :: natDigits (rest.length + p))

/-- The text `Number::toString` gives for a positive value from `1e21` up, which is
the integer `mant * 2 ^ exp`. -/
def largeText (mant : Nat) (exp : Int) : List Char :=
  exponentText
    (stripZeros 17
      (shortestNumeral (.fin false mant exp) (mant * 2 ^ exp.toNat)
        (natDigits (mant * 2 ^ exp.toNat)).length 17 1).1
      (shortestNumeral (.fin false mant exp) (mant * 2 ^ exp.toNat)
        (natDigits (mant * 2 ^ exp.toNat)).length 17 1).2).1
    (stripZeros 17
      (shortestNumeral (.fin false mant exp) (mant * 2 ^ exp.toNat)
        (natDigits (mant * 2 ^ exp.toNat)).length 17 1).1
      (shortestNumeral (.fin false mant exp) (mant * 2 ^ exp.toNat)
        (natDigits (mant * 2 ^ exp.toNat)).length 17 1).2).2

/-- The method `Number.prototype.toFixed(2)`: the sign of a negative value, then
for a magnitude below `1e21` the integer `n` nearest to a hundred times the
magnitude (the larger one when two are equally near) written with a point before
its last two digits, and for a larger magnitude the text of `Number::toString`. -/
def F64.toFixed2 : F64 → String
  | .nan => "NaN"
  | .inf false => "Infinity"
  | .inf true => "-Infinity"
  | .fin s m e =>
    String.mk
      ((if s = true ∧ m ≠ 0 then ['-'] else []) ++
        (if 10 ^ 21 * 2 ^ (-e).toNat ≤ m * 2 ^ e.toNat then largeText m e
        else
          natDigits ((2 * (m * 100 * 2 ^ e.toNat) + 2 ^ (-e).toNat) / (2 * 2 ^ (-e).toNat) / 100) ++
            '.' :: padDigits 2
              ((2 * (m * 100 * 2 ^ e.toNat) + 2 ^ (-e).toNat) / (2 * 2 ^ (-e).toNat) % 100)))

/-- The stored form of a natural number below `2 ^ 53`, which binary64 holds exactly. -/
def wholeF64 (n : Nat) : F64 :=
  if n = 0 then .fin false 0 (-1074)
  else .fin false (n * 2 ^ (52 - floorLog2 n)) ((floorLog2 n : Int) - 52)

/-! ## JSON values and `JSON.stringify` -/

/-- A value that `JSON.parse` can return. -/
inductive JsVal where
  | null
  | bool (b : Bool)
  | num (n : JsNum)
  | str (s : String)
  | arr (items : List JsVal)
  | obj (props : List (String × JsVal))

/-- The exception an evaluation ends with. -/
inductive JsError where
  | syntaxError
  | typeError
deriving DecidableEq

/-- The conversion `ToBoolean`, which the operator `||` applies to its left operand. -/
def JsVal.truthy : JsVal → Bool
  | .null => false
  | .bool b => b
  | .num (.fin d) => decide (d.mant ≠ 0)
  | .num .nan => false
  | .num (.inf _) => true
  | .str s => decide (s ≠ "")
  | .arr _ => true
  | .obj _ => true

/-- A hexadecimal digit in lower case. -/
def hexDigit (n : Nat) : Char := if n < 10 then Char.ofNat (48 + n) else Char.ofNat (87 + n)

/-- The characters `QuoteJSONString` writes for one character of a string. -/
def escapeChar (c : Char) : List Char :=
  if c = '\x22' then ['\x5c', '\x22']
  else if c = '\x5c' then ['\x5c', '\x5c']
  else if c = '\x08' then ['\x5c', 'b']
  else if c = '\x0c' then ['\x5c', 'f']
  else if c = '\x0a' then ['\x5c', 'n']
  else if c = '\x0d' then ['\x5c', 'r']
  else if c = '\x09' then ['\x5c', 't']
  else if c.toNat < 32 then
    ['\x5c', 'u', '0', '0', hexDigit (c.toNat / 16), hexDigit (c.toNat % 16)]
  else [c]

/-- The characters of a string with every character escaped as JSON requires. -/
def escapeChars : List Char → List Char
  | [] => []
  | c :: cs => escapeChar c ++ escapeChars cs

/-- The operation `QuoteJSONString`. -/
def quoteJSON (s : String) : List Char := '\x22' :: (escapeChars s.data ++ ['\x22'])

/-- JSON text of a Number: `null` for `NaN` and the infinities. -/
def JsNum.toJSON : JsNum → List Char
  | .fin d => d.toText
  | _ => ['n', 'u', 'l', 'l']

mutual
/-- The text `JSON.stringify` produces for a value. -/
def stringifyValue : JsVal → List Char
  | .null => ['n', 'u', 'l', 'l']
  | .bool true => ['t', 'r', 'u', 'e']
  | .bool false => ['f', 'a', 'l', 's', 'e']
  | .num n => n.toJSON
  | .str s => quoteJSON s
  | .arr items => '[' :: (stringifyElements items ++ [']'])
  | .obj props => '\x7b' :: (stringifyMembers props ++ ['\x7d'])
/-- The elements of an array, separated by commas. -/
def stringifyElements : List JsVal → List Char
  | [] => []
  | v :: rest =>
    match rest with
    | [] => stringifyValue v
    | _ :: _ => stringifyValue v ++ ',' :: stringifyElements rest
/-- The properties of an object, separated by commas. -/
def stringifyMembers : List (String × JsVal) → List Char
  | [] => []
  | (k, v) :: rest =>
    match rest with
    | [] => quoteJSON k ++ ':' :: stringifyValue v
    | _ :: _ => quoteJSON k ++ ':' :: stringifyValue v ++ ',' :: stringifyMembers rest
end

/-- The function `JSON.stringify`. -/
def JSON.stringify (v : JsVal) : String := String.mk (stringifyValue v)

/-! ## `JSON.parse` -/

/-- Input without its leading JSON white space. -/
def skipWs : List Char → List Char
  | [] => []
  | c :: cs => if c = ' ' ∨ c = '\x09' ∨ c = '\x0a' ∨ c = '\x0d' then skipWs cs else c :: cs

/-- Value of a hexadecimal digit. -/
def hexVal (c : Char) : Option Nat :=
  if 48 ≤ c.toNat ∧ c.toNat ≤ 57 then some (c.toNat - 48)
  else if 97 ≤ c.toNat ∧ c.toNat ≤ 102 then some (c.toNat - 87)
  else if 65 ≤ c.toNat ∧ c.toNat ≤ 70 then some (c.toNat - 55)
  else none

/-- Character of the escape `\uXXXX`; a surrogate code unit becomes U+FFFD. -/
def unicodeEscape (a b c d : Char) : Option Char :=
  match hexVal a, hexVal b, hexVal c, hexVal d with
  | some x, some y, some z, some w =>
    let n := ((x * 16 + y) * 16 + z) * 16 + w
    some (if 0xD800 ≤ n ∧ n ≤ 0xDFFF then Char.ofNat 0xFFFD else Char.ofNat n)
  | _, _, _, _ => none

/-- Character of a one-letter escape. -/
def simpleEscape (e : Char) : Option Char :=
  if e = '\x22' then some '\x22'
  else if e = '\x5c' then some '\x5c'
  else if e = '/' then some '/'
  else if e = 'b' then some '\x08'
  else if e = 'f' then some '\x0c'
  else if e = 'n' then some '\x0a'
  else if e = 'r' then some '\x0d'
  else if e = 't' then some '\x09'
  else none

/-- The rest of a JSON string after its opening quote: the string (after `acc`)
and the input behind the closing quote. -/
def parseString : List Char → List Char → Except JsError (String × List Char)
  | [], _ => .error .syntaxError
  | c :: cs, acc =>
    if c = '\x22' then .ok (String.mk acc, cs)
    else if c = '\x5c' then
      match cs with
      | [] => .error .syntaxError
      | e :: rest =>
        if e = 'u' then
          match rest with
          | h1 :: h2 :: h3 :: h4 :: rest4 =>
            match unicodeEscape h1 h2 h3 h4 with
            | some ch => parseString rest4 (acc ++ [ch])
            | none => .error .syntaxError
          | _ => .error .syntaxError
        else
          match simpleEscape e with
          | some ch => parseString rest (acc ++ [ch])
          | none => .error .syntaxError
    else if c.toNat < 32 then .error .syntaxError
    else parseString cs (acc ++ [c])

/-- The test for a decimal digit. -/
def isDigit (c : Char) : Bool := decide (48 ≤ c.toNat ∧ c.toNat ≤ 57)

/-- The leading digits of the input: their value on top of `v`, their count on top
of `k`, and the input behind them. -/
def readDigits : List Char → Nat → Nat → Nat × Nat × List Char
  | [], v, k => (v, k, [])
  | c :: cs, v, k =>
    if isDigit c then readDigits cs (v * 10 + (c.toNat - 48)) (k + 1) else (v, k, c :: cs)

/-- The integer part of a JSON number: `0`, or digits that do not start with `0`. -/
def readInt : List Char → Except JsError (Nat × List Char)
  | [] => .error .syntaxError
  | c :: cs =>
    if c = '0' then .ok (0, cs)
    else if isDigit c then .ok ((readDigits (c :: cs) 0 0).1, (readDigits (c :: cs) 0 0).2.2)
    else .error .syntaxError

/-- The optional fraction of a JSON number: value and count of its digits. -/
def readFrac : List Char → Except JsError (Nat × Nat × List Char)
  | [] => .ok (0, 0, [])
  | c :: cs =>
    if c = '.' then
      if (readDigits cs 0 0).2.1 = 0 then .error .syntaxError else .ok (readDigits cs 0 0)
    else .ok (0, 0, c :: cs)

/-- The digits of an exponent. -/
def readExpDigits (cs : List Char) : Except JsError (Nat × List Char) :=
  if (readDigits cs 0 0).2.1 = 0 then .error .syntaxError
  else .ok ((readDigits cs 0 0).1, (readDigits cs 0 0).2.2)

/-- The optional exponent of a JSON number. -/
def readExp : List Char → Except JsError (Int × List Char)
  | [] => .ok (0, [])
  | c :: cs =>
    if c = 'e' ∨ c = 'E' then
      match cs with
      | '-' :: ds => (readExpDigits ds).map (fun r => (- (r.1 : Int), r.2))
      | '+' :: ds => (readExpDigits ds).map (fun r => ((r.1 : Int), r.2))
      | ds => (readExpDigits ds).map (fun r => ((r.1 : Int), r.2))
    else .ok (0, c :: cs)

/-- The decimal `± (a * 10 ^ w + b) * 10 ^ x / 10 ^ w`. -/
def decimalValue (negative : Bool) (a b w : Nat) (x : Int) : Dec :=
  let m : Int := if negative then - ((a * 10 ^ w + b : Nat) : Int) else ((a * 10 ^ w + b : Nat) : Int)
  match x with
  | Int.ofNat e => Dec.norm w (m * 10 ^ e)
  | Int.negSucc e => Dec.norm (w + (e + 1)) m

/-- The digits of a JSON number behind its sign. -/
def parseUnsigned (negative : Bool) (cs : List Char) : Except JsError (JsNum × List Char) :=
  match readInt cs with
  | .error e => .error e
  | .ok (a, cs1) =>
    match readFrac cs1 with
    | .error e => .error e
    | .ok (b, w, cs2) =>
      match readExp cs2 with
      | .error e => .error e
      | .ok (x, cs3) => .ok (.fin (decimalValue negative a b w x), cs3)

/-- A JSON number at the head of the input. -/
def parseNumber : List Char → Except JsError (JsNum × List Char)
  | [] => .error .syntaxError
  | c :: cs => if c = '-' then parseUnsigned true cs else parseUnsigned false (c :: cs)

/-- The input behind the characters of a literal, when it starts with them. -/
def dropLiteral : List Char → List Char → Option (List Char)
  | [], cs => some cs
  | _ :: _, [] => none
  | l :: ls, c :: cs => if l = c then dropLiteral ls cs else none

/-- The assignment `obj[key] = value` on the properties read so far: a repeated
key keeps its place and takes the new value. -/
def setProp (key : String) (value : JsVal) : List (String × JsVal) → List (String × JsVal)
  | [] => [(key, value)]
  | (k, v) :: rest => if k = key then (k, value) :: rest else (k, v) :: setProp key value rest

mutual
/-- A JSON value at the head of the input, nested at most `fuel` deep. -/
def parseValue : Nat → List Char → Except JsError (JsVal × List Char)
  | 0, _ => .error .syntaxError
  | fuel + 1, cs =>
    match skipWs cs with
    | [] => .error .syntaxError
    | c :: rest =>
      if c = '\x22' then
        match parseString rest [] with
        | .error e => .error e
        | .ok (s, rest1) => .ok (.str s, rest1)
      else if c = '[' then
        match skipWs rest with
        | [] => .error .syntaxError
        | c1 :: rest1 =>
          if c1 = ']' then .ok (.arr [], rest1) else parseElements fuel (c1 :: rest1) []
      else if c = '\x7b' then
        match skipWs rest with
        | [] => .error .syntaxError
        | c1 :: rest1 =>
          if c1 = '\x7d' then .ok (.obj [], rest1) else parseMembers fuel (c1 :: rest1) []
      else if c = 'n' then
        match dropLiteral ['u', 'l', 'l'] rest with
        | some rest1 => .ok (.null, rest1)
        | none => .error .syntaxError
      else if c = 't' then
        match dropLiteral ['r', 'u', 'e'] rest with
        | some rest1 => .ok (.bool true, rest1)
        | none => .error .syntaxError
      else if c = 'f' then
        match dropLiteral ['a', 'l', 's', 'e'] rest with
        | some rest1 => .ok (.bool false, rest1)
        | none => .error .syntaxError
      else
        match parseNumber (c :: rest) with
        | .error e => .error e
        | .ok (n, rest1) => .ok (.num n, rest1)
/-- The elements of an array behind those in `acc`, up to the closing bracket. -/
def parseElements : Nat → List Char → List JsVal → Except JsError (JsVal × List Char)
  | 0, _, _ => .error .syntaxError
  | fuel + 1, cs, acc =>
    match parseValue fuel cs with
    | .error e => .error e
    | .ok (v, rest) =>
      match skipWs rest with
      | [] => .error .syntaxError
      | c :: rest1 =>
        if c = ',' then parseElements fuel rest1 (acc ++ [v])
        else if c = ']' then .ok (.arr (acc ++ [v]), rest1)
        else .error .syntaxError
/-- The members of an object behind those in `acc`, up to the closing brace. -/
def parseMembers : Nat → List Char → List (String × JsVal) → Except JsError (JsVal × List Char)
  | 0, _, _ => .error .syntaxError
  | fuel + 1, cs, acc =>
    match skipWs cs with
    | [] => .error .syntaxError
    | q :: rest =>
      if q = '\x22' then
        match parseString rest [] with
        | .error e => .error e
        | .ok (k, rest1) =>
          match skipWs rest1 with
          | [] => .error .syntaxError
          | c :: rest2 =>
            if c = ':' then
              match parseValue fuel rest2 with
              | .error e => .error e
              | .ok (v, rest3) =>
                match skipWs rest3 with
                | [] => .error .syntaxError
                | d :: rest4 =>
                  if d = ',' then parseMembers fuel rest4 (setProp k v acc)
                  else if d = '\x7d' then .ok (.obj (setProp k v acc), rest4)
                  else .error .syntaxError
            else .error .syntaxError
      else .error .syntaxError
end

/-- The function `JSON.parse`: the value of a text that is one JSON value between
optional white space, a `SyntaxError` for any other text.  No value nests deeper
than the text is long. -/
def JSON.parse (text : String) : Except JsError JsVal :=
  match parseValue (text.data.length + 1) text.data with
  | .error e => .error e
  | .ok (v, rest) => if skipWs rest = [] then .ok v else .error .syntaxError

/-! ## Data model -/

/-- One object of the `cart` array, as `addToCart` creates it. -/
structure LineItem where
  id : String
  name : String
  price : JsNum
  image : String
  quantity : Int
deriving DecidableEq

/-- A piece of markup that `renderCart` puts into `#cart-items`: the notice of the
empty cart, or the template of one item with the values that fill its holes.  The
id fills the `data-id` attribute of both buttons as it is, without escaping. -/
inductive CartEntry where
  | emptyNotice
  | row (image name subtotal id : String) (quantity : Int)
deriving DecidableEq

/-- The closure variable `cart`, the session storage, and what the script has
written to the page. -/
structure Page where
  cart : List LineItem
  sessionStorage : List (String × String)
  cartItems : List CartEntry
  cartTotal : String
  cartCounter : Int
  cartCounterDisplay : String
  toast : Option String

/-- The element `event.target` of a click inside `#cart-items`: its `data-id`
attribute, when it has one, and its classes. -/
structure ClickTarget where
  dataId : Option String
  classList : List String

/-! ## Session storage and the encoding of the cart -/

/-- The method `sessionStorage.getItem`: `none` stands for `null`. -/
def getItem (key : String) : List (String × String) → Option String
  | [] => none
  | (k, v) :: rest => if k = key then some v else getItem key rest

/-- The method `sessionStorage.setItem`. -/
def setItem (key value : String) : List (String × String) → List (String × String)
  | [] => [(key, value)]
  | (k, v) :: rest => if k = key then (k, value) :: rest else (k, v) :: setItem key value rest

/-- A line item as a JavaScript object, with the properties in the order of the
object literal in `addToCart`. -/
def encodeItem (item : LineItem) : JsVal :=
  .obj [("id", .str item.id), ("name", .str item.name), ("price", .num item.price),
    ("image", .str item.image), ("quantity", .num (JsNum.ofInt item.quantity))]

/-- The `cart` array as a JavaScript value. -/
def encodeCart (cart : List LineItem) : JsVal := .arr (cart.map encodeItem)

/-- The value of a property of an object. -/
def getProp (key : String) : List (String × JsVal) → Option JsVal
  | [] => none
  | (k, v) :: rest => if k = key then some v else getProp key rest

/-- The line item a JavaScript object stands for, when its five properties have
the types of the data model. -/
def decodeItem : JsVal → Option LineItem
  | .obj props =>
    match getProp "id" props, getProp "name" props, getProp "price" props,
      getProp "image" props, getProp "quantity" props with
    | some (.str id), some (.str name), some (.num price), some (.str image),
      some (.num (.fin ⟨q, 0, _⟩)) => some ⟨id, name, price, image, q⟩
    | _, _, _, _, _ => none
  | _ => none

/-- The line items a list of JavaScript values stands for. -/
def decodeItems : List JsVal → Option (List LineItem)
  | [] => some []
  | v :: rest =>
    match decodeItem v, decodeItems rest with
    | some item, some items => some (item :: items)
    | _, _ => none

/-- The cart a JavaScript value stands for, when it is an array of line items. -/
def decodeCart : JsVal → Option (List LineItem)
  | .arr items => decodeItems items
  | _ => none

/-! ## The functions of the script -/

/-- The assignment to `quantity` through the reference that `find` returned: it
changes the first element that passes the test. -/
def updateFirst (test : LineItem → Bool) (f : LineItem → LineItem) : List LineItem → List LineItem
  | [] => []
  | item :: rest => if test item then f item :: rest else item :: updateFirst test f rest

/-- The function `updateCartCounter`. -/
def updateCartCounter (p : Page) : Page :=
  { p with
    cartCounter := p.cart.foldl (fun sum item => sum + item.quantity) 0
    cartCounterDisplay :=
      if p.cart.foldl (fun sum item => sum + item.quantity) 0 > 0 then "inline-block" else "none" }

/-- The loop `cart.forEach` of `renderCart`: the markup appended to the container
and the value of `total`. -/
def renderItems (cart : List LineItem) : List CartEntry × F64 :=
  cart.foldl
    (fun acc item =>
      (acc.1 ++ [CartEntry.row item.image item.name
          (item.price.toF64 * F64.ofInt item.quantity).toFixed2 item.id item.quantity],
        acc.2 + item.price.toF64 * F64.ofInt item.quantity))
    ([], 0)

/-- The content of `#cart-items` and the value of `total` at the end of `renderCart`. -/
def renderBody (cart : List LineItem) : List CartEntry × F64 :=
  if cart.length = 0 then ([CartEntry.emptyNotice], 0) else renderItems cart

/-- The function `renderCart`. -/
def renderCart (p : Page) : Page :=
  updateCartCounter
    { p with cartItems := (renderBody p.cart).1, cartTotal := (renderBody p.cart).2.toFixed2 }

/-- The function `saveAndRenderCart`. -/
def saveAndRenderCart (p : Page) : Page :=
  renderCart
    { p with sessionStorage := setItem "cart" (JSON.stringify (encodeCart p.cart)) p.sessionStorage }

/-- The function `showToast`. -/
def showToast (message : String) (p : Page) : Page :=
  { p with toast := some message }

/-- The function `addToCart`. -/
def addToCart (productId productName : String) (productPrice : JsNum) (productImage : String)
    (p : Page) : Page :=
  saveAndRenderCart (showToast (productName ++ " se ha añadido al carrito.")
    { p with
      cart :=
        match p.cart.find? (fun item => item.id == productId) with
        | some _ =>
          updateFirst (fun item => item.id == productId)
            (fun item => { item with quantity := item.quantity + 1 }) p.cart
        | none => p.cart ++ [⟨productId, productName, productPrice, productImage, 1⟩] })

/-- The click listener of `#cart-items`. -/
def cartItemsClick (target : ClickTarget) (p : Page) : Page :=
  match p.cart.find? (fun item => some item.id == target.dataId) with
  | none => p
  | some product =>
    if "btn-increase" ∈ target.classList then
      saveAndRenderCart
        { p with
          cart := updateFirst (fun item => some item.id == target.dataId)
            (fun item => { item with quantity := item.quantity + 1 }) p.cart }
    else if "btn-decrease" ∈ target.classList then
      saveAndRenderCart
        { p with
          cart :=
            if product.quantity - 1 = 0 then
              (updateFirst (fun item => some item.id == target.dataId)
                (fun item => { item with quantity := item.quantity - 1 }) p.cart).filter
                (fun item => some item.id != target.dataId)
            else
              updateFirst (fun item => some item.id == target.dataId)
                (fun item => { item with quantity := item.quantity - 1 }) p.cart }
    else saveAndRenderCart p

/-- The click listener of `#clear-cart-button`. -/
def clearCartClick (p : Page) : Page :=
  saveAndRenderCart { p with cart := [] }

/-- A `-` button of `#cart-items` whose `data-id` attribute the browser reads as
`dataId`. -/
def decreaseButton (dataId : String) : ClickTarget :=
  ⟨some dataId, ["btn", "btn-sm", "btn-secondary", "me-2", "btn-decrease"]⟩

/-- A `+` button of `#cart-items` whose `data-id` attribute the browser reads as
`dataId`. -/
def increaseButton (dataId : String) : ClickTarget :=
  ⟨some dataId, ["btn", "btn-sm", "btn-secondary", "ms-2", "btn-increase"]⟩

/-- The value the HTML parser reads for the attribute in the markup
`data-id="${item.id}"` that `renderCart` writes.  The id stands between the quotes
as it is, so the value ends at the first double quote of the id.  The result is
`none` when the part before that quote holds `&`, U+0000 or a carriage return,
which the parser rewrites in ways that are not modelled. -/
def dataIdAttr (id : String) : Option String :=
  if (id.data.takeWhile (fun c => c ≠ '\x22')).any
      (fun c => c = '&' ∨ c = '\x00' ∨ c = '\x0d') then none
  else some (String.mk (id.data.takeWhile (fun c => c ≠ '\x22')))

/-- The `-` button that the browser builds from the markup `renderCart` writes for
the item with this id, where the image and the name written before it leave the
button in place. -/
def renderedDecreaseButton (id : String) : Option ClickTarget :=
  (dataIdAttr id).map decreaseButton

/-- The `+` button that the browser builds from the markup `renderCart` writes for
the item with this id, where the image and the name written before it leave the
button in place. -/
def renderedIncreaseButton (id : String) : Option ClickTarget :=
  (dataIdAttr id).map increaseButton

/-! ## Start of the script -/

/-- The expression `JSON.parse(sessionStorage.getItem('cart')) || []`; the
argument `null` of `JSON.parse` is converted to the text `null`. -/
def loadCart (storage : List (String × String)) : Except JsError JsVal :=
  match JSON.parse ((getItem "cart" storage).getD "null") with
  | .error e => .error e
  | .ok v => .ok (if v.truthy then v else .arr [])

/-- How the `DOMContentLoaded` listener ends. -/
inductive Startup where
  | raised (e : JsError)
  | running (p : Page)
  | untyped (v : JsVal)

/-- The `DOMContentLoaded` listener on a page whose DOM is still untouched.  It
ends with the exception of `JSON.parse`, or with the listeners attached and the
cart rendered; a loaded value that is not an array of line items is outside the
data model and is handed back as it is. -/
def domContentLoaded (storage : List (String × String)) : Startup :=
  match loadCart storage with
  | .error e => .raised e
  | .ok v =>
    match decodeCart v with
    | some cart => .running (renderCart ⟨cart, storage, [], "", 0, "", none⟩)
    | none => .untyped v

/-- The user actions the script listens to: a click on an "add to cart" button with
the arguments it passes to `addToCart`, a click on a `+` or a `-` button whose
`data-id` the browser reads as `id`, and a click on the clear button. -/
inductive Op where
  | add (productId productName : String) (productPrice : JsNum) (productImage : String)
  | increment (id : String)
  | decrement (id : String)
  | clear

/-- The effect of one user action on the page. -/
def Op.run : Op → Page → Page
  | .add productId productName productPrice productImage =>
    addToCart productId productName productPrice productImage
  | .increment id => cartItemsClick (increaseButton id)
  | .decrement id => cartItemsClick (decreaseButton id)
  | .clear => clearCartClick

/-- The page after a sequence of user actions. -/
def runOps (ops : List Op) (p : Page) : Page := ops.foldl (fun q op => op.run q) p

/-- The page of a fresh session, right after the `DOMContentLoaded` listener. -/
def freshPage : Page := renderCart ⟨[], [], [], "", 0, "", none⟩

/-- The page after a sequence of calls `addToCart(id, name, price, image)`. -/
def runAdds (calls : List (String × String × JsNum × String)) (p : Page) : Page :=
  calls.foldl (fun q c => addToCart c.1 c.2.1 c.2.2.1 c.2.2.2 q) p

/-- The grand total as the specification states it: the sum, taken in the order of
the cart, of `price * quantity` over the line items, in the arithmetic of Numbers. -/
def sumOfSubtotals (cart : List LineItem) : F64 :=
  (cart.map (fun item => item.price.toF64 * F64.ofInt item.quantity)).foldl (fun a b => a + b) 0

/-- The value of a price that is a non-negative whole number. -/
def JsNum.wholeValue : JsNum → Nat
  | .fin d => d.mant.natAbs
  | _ => 0

/-- The sum over the line items of `price * quantity` in exact integer arithmetic,
for a cart whose prices are whole numbers. -/
def exactTotal (cart : List LineItem) : Int :=
  (cart.map (fun item => (item.price.wholeValue : Int) * item.quantity)).sum

/-- The price 0.1. -/
def oneTenth : JsNum := .fin ⟨1, 1, by decide⟩

/-- The price 0.2. -/
def twoTenths : JsNum := .fin ⟨2, 1, by decide⟩

/-- The name of a product with double quotes in it. -/
def quotedId : String := "Tacos \x22Al Pastor\x22"

/-- The page after that product has been added to the empty cart. -/
def quotedPage : Page := addToCart quotedId quotedId (JsNum.ofInt 50) "tacos.png"
  (renderCart ⟨[], [], [], "", 0, "", none⟩)

/-- What a character behind a number has to be for the number to end before it. -/
def endsNumber (c : Char) : Prop := isDigit c = false ∧ c ≠ '.' ∧ c ≠ 'e' ∧ c ≠ 'E'

/-- What `JSON.parse` reads back for a price that `JSON.stringify` has written:
the price itself when it is finite, `null` for `NaN` and the infinities. -/
def storedPrice (price : JsNum) : JsVal :=
  if price.isFinite then .num price else .null

/-- What `JSON.parse` reads back for a line item that `JSON.stringify` has written. -/
def storedItem (item : LineItem) : JsVal :=
  .obj [("id", .str item.id), ("name", .str item.name), ("price", storedPrice item.price),
    ("image", .str item.image), ("quantity", .num (JsNum.ofInt item.quantity))]

/-- The value of a property of a JavaScript value, when it is an object that has it. -/
def JsVal.prop (key : String) : JsVal → Option JsVal
  | .obj props => getProp key props
  | _ => none

/-- The Number 50. -/
def fifty : JsNum := JsNum.ofInt 50

/-- The Number 20. -/
def twenty : JsNum := JsNum.ofInt 20

/-- A page whose cart holds Tacos at 50.00 twice and Agua at 20.00 once. -/
def samplePage : Page :=
  ⟨[⟨"Tacos", "Tacos", fifty, "tacos.png", 2⟩, ⟨"Agua", "Agua", twenty, "agua.png", 1⟩],
    [], [], "", 0, "", none⟩

/-- A page whose cart holds one item with the price `Infinity`, the value of
`parseFloat("Infinity")`. -/
def infinityPage : Page :=
  ⟨[⟨"Tacos", "Tacos", .inf false, "tacos.png", 1⟩], [], [], "", 0, "", none⟩

/-! ## Frame lemmas -/

@[simp] theorem updateCartCounter_cart (p : Page) : (updateCartCounter p).cart = p.cart := rfl

@[simp] theorem renderCart_cart (p : Page) : (renderCart p).cart = p.cart := rfl

@[simp] theorem saveAndRenderCart_cart (p : Page) : (saveAndRenderCart p).cart = p.cart := rfl

@[simp] theorem showToast_cart (m : String) (p : Page) : (showToast m p).cart = p.cart := rfl

/-- A list with an element that passes the test splits at the first such element,
which is the one `find` returns. -/
theorem exists_first_split (test : LineItem → Bool) :
    ∀ (l : List LineItem), (∃ x ∈ l, test x = true) →
      ∃ before item after, l = before ++ item :: after ∧
        (∀ x ∈ before, test x = false) ∧ test item = true ∧ l.find? test = some item
  | [], h => by simp at h
  | a :: l, h => by
    by_cases ha : test a = true
    · exact ⟨[], a, l, rfl, by simp, ha, by simp [List.find?, ha]⟩
    · have hl : ∃ x ∈ l, test x = true := by
        obtain ⟨x, hx, hxt⟩ := h
        rcases List.mem_cons.mp hx with rfl | hx
        · exact absurd hxt ha
        · exact ⟨x, hx, hxt⟩
      obtain ⟨before, item, after, hsplit, hbefore, hitem, hfind⟩ := exists_first_split test l hl
      refine ⟨a :: before, item, after, by simp [hsplit], ?_, hitem, ?_⟩
      · intro x hx
        rcases List.mem_cons.mp hx with rfl | hx
        · simpa using ha
        · exact hbefore x hx
      · simp only [Bool.not_eq_true] at ha
        simp [List.find?, ha, hfind]

/-- On a list split at the first element that passes the test, `updateFirst`
changes that element and nothing else. -/
theorem updateFirst_split (test : LineItem → Bool) (f : LineItem → LineItem) :
    ∀ (before : List LineItem) (item : LineItem) (after : List LineItem),
      (∀ x ∈ before, test x = false) → test item = true →
        updateFirst test f (before ++ item :: after) = before ++ f item :: after
  | [], item, after, _, hitem => by simp [updateFirst, hitem]
  | a :: before, item, after, hbefore, hitem => by
    have ha : test a = false := hbefore a (by simp)
    have ih := updateFirst_split test f before item after
      (fun x hx => hbefore x (by simp [hx])) hitem
    simp [updateFirst, ha, ih]

/-- The first element of a split at the first match is what `find` returns. -/
theorem find_split (test : LineItem → Bool) :
    ∀ (before : List LineItem) (item : LineItem) (after : List LineItem),
      (∀ x ∈ before, test x = false) → test item = true →
        (before ++ item :: after).find? test = some item
  | [], item, after, _, hitem => by simp [List.find?, hitem]
  | a :: before, item, after, hbefore, hitem => by
    have ha : test a = false := hbefore a (by simp)
    have ih := find_split test before item after (fun x hx => hbefore x (by simp [hx])) hitem
    simp only [List.cons_append, List.find?, ha]
    exact ih

/-- What `find` returns is the first element that passes the test. -/
theorem find_some_split (test : LineItem → Bool) :
    ∀ (l : List LineItem) (product : LineItem), l.find? test = some product →
      ∃ before after, l = before ++ product :: after ∧
        (∀ x ∈ before, test x = false) ∧ test product = true
  | [], product, h => by simp at h
  | a :: l, product, h => by
    by_cases ha : test a = true
    · simp only [List.find?, ha, Option.some.injEq] at h
      subst h
      exact ⟨[], l, rfl, by simp, ha⟩
    · simp only [Bool.not_eq_true] at ha
      simp only [List.find?, ha] at h
      obtain ⟨before, after, hsplit, hbefore, hitem⟩ := find_some_split test l product h
      refine ⟨a :: before, after, by simp [hsplit], ?_, hitem⟩
      intro x hx
      rcases List.mem_cons.mp hx with rfl | hx
      · exact ha
      · exact hbefore x hx

/-- The two ways `addToCart` changes the cart. -/
theorem addToCart_cart_cases (p : Page) (id name : String) (price : JsNum) (image : String) :
    (∃ before item after, p.cart = before ++ item :: after ∧
        (∀ x ∈ before, x.id ≠ id) ∧ item.id = id ∧
        (addToCart id name price image p).cart =
          before ++ { item with quantity := item.quantity + 1 } :: after) ∨
    ((∀ x ∈ p.cart, x.id ≠ id) ∧
      (addToCart id name price image p).cart = p.cart ++ [⟨id, name, price, image, 1⟩]) := by
  cases hfind : p.cart.find? (fun item => item.id == id) with
  | none =>
    right
    refine ⟨?_, by simp only [addToCart, saveAndRenderCart_cart, showToast_cart, hfind]⟩
    intro x hx
    have := List.find?_eq_none.mp hfind x hx
    simpa using this
  | some product =>
    left
    obtain ⟨before, after, hsplit, hbefore, hitem⟩ := find_some_split _ _ _ hfind
    refine ⟨before, product, after, hsplit, ?_, by simpa using hitem, ?_⟩
    · intro x hx
      simpa using hbefore x hx
    · simp only [addToCart, saveAndRenderCart_cart, showToast_cart, hfind]
      rw [hsplit]
      exact updateFirst_split _ _ before product after hbefore hitem

/-- The ways a click inside `#cart-items` changes the cart. -/
theorem cartItemsClick_cases (target : ClickTarget) (p : Page) :
    ((∀ x ∈ p.cart, some x.id ≠ target.dataId) ∧ cartItemsClick target p = p) ∨
    (∃ before product after, p.cart = before ++ product :: after ∧
      (∀ x ∈ before, some x.id ≠ target.dataId) ∧ some product.id = target.dataId ∧
      (cartItemsClick target p).cart =
        if "btn-increase" ∈ target.classList then
          before ++ { product with quantity := product.quantity + 1 } :: after
        else if "btn-decrease" ∈ target.classList then
          if product.quantity - 1 = 0 then
            (before ++ { product with quantity := product.quantity - 1 } :: after).filter
              (fun item => some item.id != target.dataId)
          else before ++ { product with quantity := product.quantity - 1 } :: after
        else p.cart) := by
  cases hfind : p.cart.find? (fun item => some item.id == target.dataId) with
  | none =>
    left
    refine ⟨?_, by simp only [cartItemsClick, hfind]⟩
    intro x hx
    have := List.find?_eq_none.mp hfind x hx
    simpa using this
  | some product =>
    right
    obtain ⟨before, after, hsplit, hbefore, hitem⟩ := find_some_split _ _ _ hfind
    have hupd := fun f => updateFirst_split _ f before product after hbefore hitem
    refine ⟨before, product, after, hsplit, ?_, by simpa using hitem, ?_⟩
    · intro x hx
      simpa using hbefore x hx
    · simp only [cartItemsClick, hfind]
      split_ifs <;> simp only [saveAndRenderCart_cart] <;> rw [hsplit] <;> simp only [hupd]

/-! ## C2: `addToCart` -/

/-- Claim C2.  `addToCart(id, name, price, image)`: if some line item of the cart
has this id, the cart splits as `before ++ item :: after` with `item` the first
one that has the id, and the new cart is `before ++ item' :: after` where `item'`
is `item` with its quantity increased by exactly 1 (same length, same order, all
other items and fields unchanged); if no line item has this id, the new cart is the
old one with the item `{id, name, price, image, quantity: 1}` appended at its end. -/
theorem C2_addToCart (p : Page) (id name : String) (price : JsNum) (image : String) :
    ((∃ item ∈ p.cart, item.id = id) →
      ∃ before item after, p.cart = before ++ item :: after ∧
        (∀ x ∈ before, x.id ≠ id) ∧ item.id = id ∧
        (addToCart id name price image p).cart =
          before ++ { item with quantity := item.quantity + 1 } :: after ∧
        (addToCart id name price image p).cart.length = p.cart.length) ∧
    ((¬ ∃ item ∈ p.cart, item.id = id) →
      (addToCart id name price image p).cart = p.cart ++ [⟨id, name, price, image, 1⟩]) := by
  constructor
  · intro h
    have h1 : ∃ x ∈ p.cart, (fun item : LineItem => item.id == id) x = true := by
      obtain ⟨x, hx, hid⟩ := h
      exact ⟨x, hx, by simp [hid]⟩
    obtain ⟨before, item, after, hsplit, hbefore, hitem, hfind⟩ := exists_first_split _ _ h1
    refine ⟨before, item, after, hsplit, ?_, by simpa using hitem, ?_, ?_⟩
    · intro x hx
      simpa using hbefore x hx
    · simp only [addToCart, saveAndRenderCart_cart, showToast_cart, hfind]
      rw [hsplit]
      exact updateFirst_split _ _ before item after hbefore hitem
    · simp only [addToCart, saveAndRenderCart_cart, showToast_cart, hfind]
      rw [hsplit, updateFirst_split _ _ before item after hbefore hitem]
      simp
  · intro h
    have hnone : p.cart.find? (fun item => item.id == id) = none := by
      rw [List.find?_eq_none]
      intro x hx hxt
      exact h ⟨x, hx, by simpa using hxt⟩
    simp only [addToCart, saveAndRenderCart_cart, showToast_cart, hnone]

/-- In a cart without duplicate ids, no item around `item` has the id of `item`. -/
theorem nodup_split_ids (before after : List LineItem) (item : LineItem)
    (h : ((before ++ item :: after).map LineItem.id).Nodup) :
    (∀ x ∈ before, x.id ≠ item.id) ∧ (∀ x ∈ after, x.id ≠ item.id) := by
  rw [List.map_append, List.map_cons, List.nodup_append] at h
  obtain ⟨_, hcons, hdisj⟩ := h
  rw [List.nodup_cons] at hcons
  constructor
  · intro x hx heq
    exact hdisj (List.mem_map_of_mem LineItem.id hx) (by simp [heq])
  · intro x hx heq
    exact hcons.1 (by rw [← heq]; exact List.mem_map_of_mem LineItem.id hx)

/-- A filter that keeps every element of a list returns the list. -/
theorem filter_keep_all (test : LineItem → Bool) (l : List LineItem)
    (h : ∀ x ∈ l, test x = true) : l.filter test = l :=
  List.filter_eq_self.mpr h

/-! ## The decrease button, by the `data-id` it carries -/

/-- A click on a `-` button whose `data-id` the browser reads as the id of an item,
in a cart without duplicate ids whose quantities are all at least 1: when the
quantity of the item is 1 the new cart is the old one with exactly that item
removed (the remaining items unchanged and in the same order, no entry with
quantity zero left, the length one less); when it is greater than 1 the new cart is
the old one with only the quantity of that item decreased by 1.  From the empty
cart, add Tacos, add Agua, decrease Tacos gives exactly the cart with Agua at
quantity 1. -/
theorem decrease_click_spec :
    (∀ (p : Page) (before after : List LineItem) (item : LineItem),
      p.cart = before ++ item :: after →
      (p.cart.map LineItem.id).Nodup →
      (∀ x ∈ p.cart, 1 ≤ x.quantity) →
      (item.quantity = 1 →
        (cartItemsClick (decreaseButton item.id) p).cart = before ++ after ∧
        (cartItemsClick (decreaseButton item.id) p).cart.length + 1 = p.cart.length ∧
        ∀ x ∈ (cartItemsClick (decreaseButton item.id) p).cart, x.quantity ≠ 0) ∧
      (1 < item.quantity →
        (cartItemsClick (decreaseButton item.id) p).cart =
          before ++ { item with quantity := item.quantity - 1 } :: after)) ∧
    (runOps [.add "Tacos" "Tacos" fifty "tacos.png", .add "Agua" "Agua" twenty "agua.png",
        .decrement "Tacos"] freshPage).cart = [⟨"Agua", "Agua", twenty, "agua.png", 1⟩] := by
  refine ⟨?_, by decide⟩
  intro p before after item hcart hnodup hq
  rw [hcart] at hnodup
  obtain ⟨hb, ha⟩ := nodup_split_ids before after item hnodup
  have hbefore : ∀ x ∈ before,
      (fun x : LineItem => some x.id == (decreaseButton item.id).dataId) x = false := by
    intro x hx
    simpa [decreaseButton] using hb x hx
  have hitem : (fun x : LineItem => some x.id == (decreaseButton item.id).dataId) item = true := by
    simp [decreaseButton]
  have hfind := find_split _ before item after hbefore hitem
  have hinc : ¬ "btn-increase" ∈ (decreaseButton item.id).classList := by
    show ¬ "btn-increase" ∈ ["btn", "btn-sm", "btn-secondary", "me-2", "btn-decrease"]
    decide
  have hdec : "btn-decrease" ∈ (decreaseButton item.id).classList := by
    show "btn-decrease" ∈ ["btn", "btn-sm", "btn-secondary", "me-2", "btn-decrease"]
    decide
  have hupd := fun f => updateFirst_split _ f before item after hbefore hitem
  constructor
  · intro h1
    have hres : (cartItemsClick (decreaseButton item.id) p).cart = before ++ after := by
      simp only [cartItemsClick, hcart, hfind, hinc, hdec, if_true, if_false,
        saveAndRenderCart_cart, hupd, h1]
      simp only [sub_self, if_true, List.filter_append, List.filter_cons]
      have hitem' : (some item.id != (decreaseButton item.id).dataId) = false := by
        simp [decreaseButton]
      rw [hitem', filter_keep_all _ before, filter_keep_all _ after]
      · simp
      · intro x hx
        simpa [decreaseButton] using ha x hx
      · intro x hx
        simpa [decreaseButton] using hb x hx
    refine ⟨hres, ?_, ?_⟩
    · rw [hres, hcart]
      simp
      omega
    · intro x hx
      rw [hres] at hx
      have hx' : x ∈ p.cart := by
        rw [hcart]
        rcases List.mem_append.mp hx with h | h
        · exact List.mem_append_left _ h
        · exact List.mem_append_right _ (List.mem_cons_of_mem _ h)
      have := hq x hx'
      omega
  · intro h1
    have hne : ¬ (item.quantity - 1 = 0) := by omega
    simp only [cartItemsClick, hcart, hfind, hinc, hdec, if_true, if_false,
      saveAndRenderCart_cart, hupd, hne]

/-! ## C3: the decrease button that `renderCart` writes -/

/-- A click on an element whose `data-id` matches no item leaves the page as it is. -/
theorem click_unmatched (p : Page) (target : ClickTarget)
    (h : ∀ x ∈ p.cart, some x.id ≠ target.dataId) : cartItemsClick target p = p := by
  have hfind : p.cart.find? (fun item => some item.id == target.dataId) = none := by
    rw [List.find?_eq_none]
    intro x hx
    simpa using h x hx
  simp only [cartItemsClick, hfind]

/-- An id without a double quote, `&`, U+0000 or carriage return is read back from
the `data-id` attribute as it is. -/
theorem dataIdAttr_plain (id : String)
    (h : ∀ c ∈ id.data, c ≠ '\x22' ∧ c ≠ '&' ∧ c ≠ '\x00' ∧ c ≠ '\x0d') :
    dataIdAttr id = some id := by
  have htake : id.data.takeWhile (fun c => decide (c ≠ '\x22')) = id.data := by
    rw [List.takeWhile_eq_self_iff]
    intro c hc
    simpa using (h c hc).1
  have hany : (id.data.any (fun c => decide (c = '&' ∨ c = '\x00' ∨ c = '\x0d'))) = false := by
    rw [List.any_eq_false]
    intro c hc
    obtain ⟨_, h2, h3, h4⟩ := h c hc
    simp [h2, h3, h4]
  simp only [dataIdAttr, htake, hany, Bool.false_eq_true, if_false]

/-- Claim C3, at the failing input.  The product named `Tacos "Al Pastor"` is added
to the empty cart, so the cart holds it with quantity 1.  `renderCart` writes its
id into `data-id="..."` without escaping, so the `-` button of the item carries the
`data-id` `Tacos ` (the id up to its first double quote).  A click on that button
finds no item and returns at once: the page is unchanged and the item is still in
the cart with quantity 1, where the claim says it is removed. -/
theorem C3_quoted_id_not_removed :
    quotedPage.cart = [⟨quotedId, quotedId, JsNum.ofInt 50, "tacos.png", 1⟩] ∧
    quotedPage.cartItems = [CartEntry.row "tacos.png" quotedId "50.00" quotedId 1] ∧
    renderedDecreaseButton quotedId = some (decreaseButton "Tacos ") ∧
    cartItemsClick (decreaseButton "Tacos ") quotedPage = quotedPage ∧
    (cartItemsClick (decreaseButton "Tacos ") quotedPage).cart =
      [⟨quotedId, quotedId, JsNum.ofInt 50, "tacos.png", 1⟩] := by
  have hcart : quotedPage.cart = [⟨quotedId, quotedId, JsNum.ofInt 50, "tacos.png", 1⟩] := by
    decide
  have hclick : cartItemsClick (decreaseButton "Tacos ") quotedPage = quotedPage := by
    apply click_unmatched
    rw [hcart]
    decide
  exact ⟨hcart, by decide, rfl, hclick, by rw [hclick, hcart]⟩

/-! ## C4: quantities stay positive -/

/-- Every quantity in the cart of `addToCart` is at least 1 when that holds before. -/
theorem addToCart_quantities (p : Page) (id name : String) (price : JsNum) (image : String)
    (h : ∀ x ∈ p.cart, 1 ≤ x.quantity) :
    ∀ x ∈ (addToCart id name price image p).cart, 1 ≤ x.quantity := by
  rcases addToCart_cart_cases p id name price image with
    ⟨before, item, after, hsplit, _, _, hres⟩ | ⟨_, hres⟩
  · rw [hres]
    rw [hsplit] at h
    intro x hx
    rcases List.mem_append.mp hx with hx | hx
    · exact h x (List.mem_append_left _ hx)
    · rcases List.mem_cons.mp hx with rfl | hx
      · have := h item (by simp)
        show 1 ≤ item.quantity + 1
        omega
      · exact h x (by simp [hx])
  · rw [hres]
    intro x hx
    rcases List.mem_append.mp hx with hx | hx
    · exact h x hx
    · simp only [List.mem_singleton] at hx
      subst hx
      exact le_refl _

/-- Every quantity in the cart after a click inside `#cart-items` is at least 1
when that holds before. -/
theorem cartItemsClick_quantities (target : ClickTarget) (p : Page)
    (h : ∀ x ∈ p.cart, 1 ≤ x.quantity) :
    ∀ x ∈ (cartItemsClick target p).cart, 1 ≤ x.quantity := by
  rcases cartItemsClick_cases target p with
    ⟨_, hres⟩ | ⟨before, product, after, hsplit, _, hid, hres⟩
  · rw [hres]
    exact h
  · rw [hres]
    rw [hsplit] at h
    have hb : ∀ x ∈ before, 1 ≤ x.quantity := fun x hx => h x (List.mem_append_left _ hx)
    have ha : ∀ x ∈ after, 1 ≤ x.quantity := fun x hx => h x (by simp [hx])
    have hp : 1 ≤ product.quantity := h product (by simp)
    have hmem : ∀ (q : Int), 1 ≤ q → ∀ x ∈ before ++ { product with quantity := q } :: after,
        1 ≤ x.quantity := by
      intro q hq x hx
      rcases List.mem_append.mp hx with hx | hx
      · exact hb x hx
      · rcases List.mem_cons.mp hx with rfl | hx
        · exact hq
        · exact ha x hx
    split_ifs with h1 h2 h3
    · exact hmem _ (by omega)
    · intro x hx
      rw [List.mem_filter] at hx
      obtain ⟨hx, hne⟩ := hx
      rcases List.mem_append.mp hx with hx | hx
      · exact hb x hx
      · rcases List.mem_cons.mp hx with rfl | hx
        · simp [hid] at hne
        · exact ha x hx
    · exact hmem _ (by omega)
    · rw [hsplit]
      exact h

/-- Every quantity in the cart after a user action is at least 1 when that holds before. -/
theorem run_quantities (op : Op) (p : Page) (h : ∀ x ∈ p.cart, 1 ≤ x.quantity) :
    ∀ x ∈ (op.run p).cart, 1 ≤ x.quantity := by
  cases op with
  | add productId productName productPrice productImage =>
    exact addToCart_quantities p productId productName productPrice productImage h
  | increment id => exact cartItemsClick_quantities _ p h
  | decrement id => exact cartItemsClick_quantities _ p h
  | clear =>
    intro x hx
    simp [Op.run, clearCartClick] at hx

/-- The page after `ops` and then `op`. -/
theorem runOps_snoc (ops : List Op) (op : Op) (p : Page) :
    runOps (ops ++ [op]) p = op.run (runOps ops p) := by
  simp [runOps, List.foldl_append]

/-- Every quantity in the cart after a sequence of user actions is at least 1 when
that holds before. -/
theorem runOps_quantities (ops : List Op) (p : Page) (h : ∀ x ∈ p.cart, 1 ≤ x.quantity) :
    ∀ x ∈ (runOps ops p).cart, 1 ≤ x.quantity := by
  induction ops using List.reverseRecOn with
  | nil => exact h
  | append_singleton ops op ih =>
    rw [runOps_snoc]
    exact run_quantities op _ ih

/-- Claim C4.  Every line item of the cart has a quantity of at least 1: this holds
for the empty cart of a fresh session, each of add, increment, decrement and clear
preserves it (also a click on any other element inside `#cart-items`), and so it
holds in every cart reached from the empty cart by a sequence of these actions. -/
theorem C4_quantity_invariant :
    (∀ x ∈ freshPage.cart, 1 ≤ x.quantity) ∧
    (∀ (op : Op) (p : Page), (∀ x ∈ p.cart, 1 ≤ x.quantity) →
      ∀ x ∈ (op.run p).cart, 1 ≤ x.quantity) ∧
    (∀ (target : ClickTarget) (p : Page), (∀ x ∈ p.cart, 1 ≤ x.quantity) →
      ∀ x ∈ (cartItemsClick target p).cart, 1 ≤ x.quantity) ∧
    (∀ (ops : List Op), ∀ x ∈ (runOps ops freshPage).cart, 1 ≤ x.quantity) := by
  refine ⟨?_, run_quantities, cartItemsClick_quantities, ?_⟩
  · intro x hx
    simp [freshPage] at hx
  · intro ops
    apply runOps_quantities
    intro x hx
    simp [freshPage] at hx

/-! ## C5: ids stay unique -/

/-- The ids of the cart of `addToCart`. -/
theorem addToCart_ids (p : Page) (id name : String) (price : JsNum) (image : String) :
    ((∃ x ∈ p.cart, x.id = id) ∧
      (addToCart id name price image p).cart.map LineItem.id = p.cart.map LineItem.id) ∨
    ((∀ x ∈ p.cart, x.id ≠ id) ∧
      (addToCart id name price image p).cart.map LineItem.id = p.cart.map LineItem.id ++ [id]) := by
  rcases addToCart_cart_cases p id name price image with
    ⟨before, item, after, hsplit, _, hid, hres⟩ | ⟨habs, hres⟩
  · left
    refine ⟨⟨item, by simp [hsplit], hid⟩, ?_⟩
    rw [hres, hsplit]
    simp
  · right
    refine ⟨habs, ?_⟩
    rw [hres]
    simp

/-- The ids of the cart after `addToCart` are distinct when they are before. -/
theorem addToCart_nodup (p : Page) (id name : String) (price : JsNum) (image : String)
    (h : (p.cart.map LineItem.id).Nodup) :
    ((addToCart id name price image p).cart.map LineItem.id).Nodup := by
  rcases addToCart_ids p id name price image with ⟨_, hres⟩ | ⟨habs, hres⟩
  · rw [hres]
    exact h
  · rw [hres]
    refine List.Nodup.append h (List.nodup_singleton id) ?_
    intro a ha hb
    simp only [List.mem_singleton] at hb
    subst hb
    obtain ⟨x, hx, hxa⟩ := List.mem_map.mp ha
    exact habs x hx hxa

/-- The ids of the cart after a click inside `#cart-items` are a sublist of the ids
before. -/
theorem cartItemsClick_ids_sublist (target : ClickTarget) (p : Page) :
    List.Sublist ((cartItemsClick target p).cart.map LineItem.id) (p.cart.map LineItem.id) := by
  rcases cartItemsClick_cases target p with
    ⟨_, hres⟩ | ⟨before, product, after, hsplit, _, _, hres⟩
  · rw [hres]
  · rw [hres]
    have hsame : ∀ q : Int, (before ++ { product with quantity := q } :: after).map LineItem.id =
        p.cart.map LineItem.id := by
      intro q
      rw [hsplit]
      simp
    split_ifs
    · rw [hsame]
    · rw [← hsame (product.quantity - 1)]
      exact List.Sublist.map _ (List.filter_sublist _)
    · rw [hsame]
    · exact List.Sublist.refl _

/-- A click on a `+` button leaves the sequence of ids as it is. -/
theorem increase_ids (id : String) (p : Page) :
    (cartItemsClick (increaseButton id) p).cart.map LineItem.id = p.cart.map LineItem.id := by
  rcases cartItemsClick_cases (increaseButton id) p with
    ⟨_, hres⟩ | ⟨before, product, after, hsplit, _, _, hres⟩
  · rw [hres]
  · rw [hres, hsplit]
    have hinc : "btn-increase" ∈ (increaseButton id).classList := by
      show "btn-increase" ∈ ["btn", "btn-sm", "btn-secondary", "ms-2", "btn-increase"]
      decide
    simp [hinc]

/-- The ids of the cart after a user action are distinct when they are before. -/
theorem run_nodup (op : Op) (p : Page) (h : (p.cart.map LineItem.id).Nodup) :
    ((op.run p).cart.map LineItem.id).Nodup := by
  cases op with
  | add productId productName productPrice productImage =>
    exact addToCart_nodup p productId productName productPrice productImage h
  | increment id => exact List.Nodup.sublist (cartItemsClick_ids_sublist _ p) h
  | decrement id => exact List.Nodup.sublist (cartItemsClick_ids_sublist _ p) h
  | clear => simp [Op.run, clearCartClick]

/-- The ids of the cart after a sequence of user actions are distinct when they are
before. -/
theorem runOps_nodup (ops : List Op) (p : Page) (h : (p.cart.map LineItem.id).Nodup) :
    ((runOps ops p).cart.map LineItem.id).Nodup := by
  induction ops using List.reverseRecOn with
  | nil => exact h
  | append_singleton ops op ih =>
    rw [runOps_snoc]
    exact run_nodup op _ ih

/-- Claim C5.  The cart never holds two line items with the same id: this holds for
the empty cart of a fresh session, each of add, increment, decrement and clear
preserves it, and so it holds in every cart reached from the empty cart by a
sequence of these actions.  Moreover increment, and add of an id that is already
present, leave the sequence of ids (the order of the items) unchanged. -/
theorem C5_unique_ids :
    (freshPage.cart.map LineItem.id).Nodup ∧
    (∀ (op : Op) (p : Page), (p.cart.map LineItem.id).Nodup →
      ((op.run p).cart.map LineItem.id).Nodup) ∧
    (∀ (ops : List Op), ((runOps ops freshPage).cart.map LineItem.id).Nodup) ∧
    (∀ (id : String) (p : Page),
      ((Op.increment id).run p).cart.map LineItem.id = p.cart.map LineItem.id) ∧
    (∀ (id name : String) (price : JsNum) (image : String) (p : Page),
      (∃ x ∈ p.cart, x.id = id) →
      ((Op.add id name price image).run p).cart.map LineItem.id = p.cart.map LineItem.id) := by
  refine ⟨by simp [freshPage], run_nodup, ?_, ?_, ?_⟩
  · intro ops
    exact runOps_nodup ops freshPage (by simp [freshPage])
  · intro id p
    exact increase_ids id p
  · intro id name price image p hex
    rcases addToCart_ids p id name price image with ⟨_, hres⟩ | ⟨habs, _⟩
    · exact hres
    · obtain ⟨x, hx, hid⟩ := hex
      exact absurd hid (habs x hx)

/-! ## C7: an id that is not in the cart -/

/-- Claim C7.  Increment or decrement of an id that no line item of the cart has
changes nothing: the listener returns at once, so the cart (items, order and
quantities) and the rest of the page are what they were, and there is no step at
which an exception could be raised.  The same holds for a click on any element of
`#cart-items` whose `data-id` is missing or matches no item. -/
theorem C7_absent_id_noop :
    (∀ (p : Page) (id : String), (∀ x ∈ p.cart, x.id ≠ id) →
      (Op.increment id).run p = p ∧ (Op.decrement id).run p = p) ∧
    (∀ (p : Page) (target : ClickTarget), (∀ x ∈ p.cart, some x.id ≠ target.dataId) →
      cartItemsClick target p = p) := by
  have key : ∀ (p : Page) (target : ClickTarget), (∀ x ∈ p.cart, some x.id ≠ target.dataId) →
      cartItemsClick target p = p := by
    intro p target h
    have hfind : p.cart.find? (fun item => some item.id == target.dataId) = none := by
      rw [List.find?_eq_none]
      intro x hx
      simpa using h x hx
    simp only [cartItemsClick, hfind]
  refine ⟨?_, key⟩
  intro p id h
  constructor
  · exact key p (increaseButton id) (fun x hx => by simpa [increaseButton] using h x hx)
  · exact key p (decreaseButton id) (fun x hx => by simpa [decreaseButton] using h x hx)

/-! ## C6: a sequence of `addToCart` calls -/

/-- The page after `calls` and then one more call. -/
theorem runAdds_snoc (calls : List (String × String × JsNum × String))
    (c : String × String × JsNum × String) (p : Page) :
    runAdds (calls ++ [c]) p = addToCart c.1 c.2.1 c.2.2.1 c.2.2.2 (runAdds calls p) := by
  simp [runAdds, List.foldl_append]

/-- After a sequence of `addToCart` calls on the empty cart: the ids of the cart are
distinct, they are the ids of the calls, they stand in the order of their first
calls, and every quantity is the number of calls with the id of its item. -/
theorem runAdds_invariant (calls : List (String × String × JsNum × String)) :
    ((runAdds calls freshPage).cart.map LineItem.id).Nodup ∧
    (∀ i, i ∈ (runAdds calls freshPage).cart.map LineItem.id ↔ i ∈ calls.map Prod.fst) ∧
    List.Pairwise (fun a b => (calls.map Prod.fst).indexOf a < (calls.map Prod.fst).indexOf b)
      ((runAdds calls freshPage).cart.map LineItem.id) ∧
    (∀ x ∈ (runAdds calls freshPage).cart, x.quantity = ((calls.map Prod.fst).count x.id : Int)) := by
  induction calls using List.reverseRecOn with
  | nil => simp [runAdds, freshPage]
  | append_singleton calls c ih =>
    obtain ⟨hnodup, hmem, hpair, hqty⟩ := ih
    rw [runAdds_snoc]
    generalize runAdds calls freshPage = p at hnodup hmem hpair hqty ⊢
    have hidx : ∀ a ∈ p.cart.map LineItem.id,
        (List.map Prod.fst (calls ++ [c])).indexOf a = (calls.map Prod.fst).indexOf a := by
      intro a ha
      rw [List.map_append]
      exact List.indexOf_append_of_mem ((hmem a).mp ha)
    have hpair' : List.Pairwise
        (fun a b => (List.map Prod.fst (calls ++ [c])).indexOf a <
          (List.map Prod.fst (calls ++ [c])).indexOf b) (p.cart.map LineItem.id) := by
      refine List.Pairwise.imp_of_mem ?_ hpair
      intro a b ha hb hab
      rw [hidx a ha, hidx b hb]
      exact hab
    have hcount : ∀ i : String, ((List.map Prod.fst (calls ++ [c])).count i : Int) =
        ((calls.map Prod.fst).count i : Int) + (if c.1 = i then 1 else 0) := by
      intro i
      rw [List.map_append, List.count_append]
      by_cases hci : c.1 = i
      · simp [hci]
      · simp [hci, List.count_cons]
    rcases addToCart_cart_cases p c.1 c.2.1 c.2.2.1 c.2.2.2 with
      ⟨before, item, after, hsplit, hbefore, hid, hres⟩ | ⟨habs, hres⟩
    · have hids : (addToCart c.1 c.2.1 c.2.2.1 c.2.2.2 p).cart.map LineItem.id =
          p.cart.map LineItem.id := by
        rw [hres, hsplit]
        simp
      have hin : c.1 ∈ calls.map Prod.fst :=
        (hmem c.1).mp (List.mem_map.mpr ⟨item, by simp [hsplit], hid⟩)
      rw [hsplit] at hnodup
      obtain ⟨_, hafter⟩ := nodup_split_ids before after item hnodup
      refine ⟨?_, ?_, ?_, ?_⟩
      · rw [hids, hsplit]
        exact hnodup
      · intro i
        rw [hids, hmem i, List.map_append, List.mem_append]
        constructor
        · exact Or.inl
        · rintro (h | h)
          · exact h
          · simp only [List.map_cons, List.map_nil, List.mem_singleton] at h
            rw [h]
            exact hin
      · rw [hids]
        exact hpair'
      · intro x hx
        rw [hres] at hx
        rw [hcount]
        rcases List.mem_append.mp hx with hx | hx
        · have hne : c.1 ≠ x.id := fun h => hbefore x hx h.symm
          rw [hqty x (by simp [hsplit, hx])]
          simp [hne]
        · rcases List.mem_cons.mp hx with rfl | hx
          · show item.quantity + 1 = _
            rw [hqty item (by simp [hsplit])]
            simp [hid]
          · have hne : c.1 ≠ x.id := fun h => hafter x hx (by rw [hid]; exact h.symm)
            rw [hqty x (by simp [hsplit, hx])]
            simp [hne]
    · have hids : (addToCart c.1 c.2.1 c.2.2.1 c.2.2.2 p).cart.map LineItem.id =
          p.cart.map LineItem.id ++ [c.1] := by
        rw [hres]
        simp
      have hnotin : c.1 ∉ calls.map Prod.fst := by
        intro h
        obtain ⟨x, hx, hxid⟩ := List.mem_map.mp ((hmem c.1).mpr h)
        exact habs x hx hxid
      refine ⟨?_, ?_, ?_, ?_⟩
      · rw [hids]
        refine List.Nodup.append hnodup (List.nodup_singleton _) ?_
        intro a ha hb
        simp only [List.mem_singleton] at hb
        subst hb
        obtain ⟨x, hx, hxa⟩ := List.mem_map.mp ha
        exact habs x hx hxa
      · intro i
        rw [hids, List.mem_append, hmem i, List.map_append, List.mem_append]
        simp
      · rw [hids, List.pairwise_append]
        refine ⟨hpair', List.pairwise_singleton _ _, ?_⟩
        intro a ha b hb
        simp only [List.mem_singleton] at hb
        subst hb
        rw [hidx a ha, List.map_append, List.indexOf_append_of_not_mem hnotin]
        have := List.indexOf_lt_length.mpr ((hmem a).mp ha)
        omega
      · intro x hx
        rw [hres] at hx
        rw [hcount]
        rcases List.mem_append.mp hx with hx | hx
        · have hne : c.1 ≠ x.id := fun h => habs x hx h.symm
          rw [hqty x hx]
          simp [hne]
        · simp only [List.mem_singleton] at hx
          subst hx
          simp [List.count_eq_zero_of_not_mem hnotin]

/-- Claim C6.  After any finite sequence of `addToCart` calls on the empty cart, the
length of the cart is the number of distinct ids in the sequence, the items stand
in the order in which their ids first occur in the sequence, and the quantity of
each item is the number of calls made with its id.  Tacos at 50.00 added twice gives
exactly the cart with Tacos at quantity 2. -/
theorem C6_add_sequence :
    (∀ (calls : List (String × String × JsNum × String)),
      (runAdds calls freshPage).cart.length = (calls.map Prod.fst).toFinset.card ∧
      ((runAdds calls freshPage).cart.map LineItem.id).Nodup ∧
      (∀ i, i ∈ (runAdds calls freshPage).cart.map LineItem.id ↔ i ∈ calls.map Prod.fst) ∧
      List.Pairwise (fun a b => (calls.map Prod.fst).indexOf a < (calls.map Prod.fst).indexOf b)
        ((runAdds calls freshPage).cart.map LineItem.id) ∧
      (∀ x ∈ (runAdds calls freshPage).cart,
        x.quantity = ((calls.map Prod.fst).count x.id : Int))) ∧
    (runAdds [("Tacos", "Tacos", fifty, "tacos.png"), ("Tacos", "Tacos", fifty, "tacos.png")]
      freshPage).cart = [⟨"Tacos", "Tacos", fifty, "tacos.png", 2⟩] := by
  refine ⟨?_, by decide⟩
  intro calls
  obtain ⟨hnodup, hmem, hpair, hqty⟩ := runAdds_invariant calls
  refine ⟨?_, hnodup, hmem, hpair, hqty⟩
  have hset : ((runAdds calls freshPage).cart.map LineItem.id).toFinset =
      (calls.map Prod.fst).toFinset := by
    ext i
    simp only [List.mem_toFinset]
    exact hmem i
  rw [← hset, List.toFinset_card_of_nodup hnodup, List.length_map]

/-! ## Every reachable page is a rendered page -/

/-- A user action either leaves the page as it is or ends in `renderCart`. -/
theorem run_rendered (op : Op) (p : Page) : op.run p = p ∨ ∃ q, op.run p = renderCart q := by
  have hclick : ∀ target : ClickTarget,
      cartItemsClick target p = p ∨ ∃ q, cartItemsClick target p = renderCart q := by
    intro target
    cases hfind : p.cart.find? (fun item => some item.id == target.dataId) with
    | none => exact Or.inl (by simp only [cartItemsClick, hfind])
    | some product =>
      right
      simp only [cartItemsClick, hfind]
      split_ifs <;> exact ⟨_, rfl⟩
  cases op with
  | add productId productName productPrice productImage => exact Or.inr ⟨_, rfl⟩
  | increment id => exact hclick _
  | decrement id => exact hclick _
  | clear => exact Or.inr ⟨_, rfl⟩

/-- The page after any sequence of user actions in a fresh session is the result of
a call of `renderCart`. -/
theorem runOps_rendered (ops : List Op) : ∃ q, runOps ops freshPage = renderCart q := by
  induction ops using List.reverseRecOn with
  | nil => exact ⟨_, rfl⟩
  | append_singleton ops op ih =>
    rw [runOps_snoc]
    rcases run_rendered op (runOps ops freshPage) with h | h
    · rw [h]
      exact ih
    · exact h

/-! ## C9: the badge -/

/-- The loop of `reduce` adds the quantities to its start value. -/
theorem foldl_quantity (cart : List LineItem) :
    ∀ start : Int, cart.foldl (fun sum item => sum + item.quantity) start =
      start + (cart.map LineItem.quantity).sum := by
  induction cart with
  | nil => simp
  | cons item rest ih =>
    intro start
    simp only [List.foldl_cons, List.map_cons, List.sum_cons, ih]
    ring

/-- The count `updateCartCounter` writes is the sum of the quantities. -/
theorem updateCartCounter_count (p : Page) :
    (updateCartCounter p).cartCounter = (p.cart.map LineItem.quantity).sum := by
  simp [updateCartCounter, foldl_quantity]

/-- The badge is hidden exactly when the sum of the quantities is not positive. -/
theorem updateCartCounter_display (p : Page) :
    ((updateCartCounter p).cartCounterDisplay = "none" ↔
      (p.cart.map LineItem.quantity).sum ≤ 0) ∧
    ((updateCartCounter p).cartCounterDisplay = "inline-block" ↔
      0 < (p.cart.map LineItem.quantity).sum) := by
  by_cases h : (p.cart.map LineItem.quantity).sum > 0
  · have hd : (updateCartCounter p).cartCounterDisplay = "inline-block" := by
      simp only [updateCartCounter, foldl_quantity, zero_add, h, if_true]
    rw [hd]
    refine ⟨⟨fun hne => absurd hne (by decide), fun hle => by omega⟩, fun _ => h, fun _ => rfl⟩
  · have hd : (updateCartCounter p).cartCounterDisplay = "none" := by
      simp only [updateCartCounter, foldl_quantity, zero_add, h, if_false]
    rw [hd]
    refine ⟨⟨fun _ => by omega, fun _ => rfl⟩, fun hne => absurd hne (by decide),
      fun hlt => absurd hlt h⟩

/-- The sum of quantities that are all at least 1 is not negative. -/
theorem quantity_sum_nonneg (cart : List LineItem) (h : ∀ x ∈ cart, 1 ≤ x.quantity) :
    0 ≤ (cart.map LineItem.quantity).sum := by
  induction cart with
  | nil => simp
  | cons item rest ih =>
    have h1 := h item (by simp)
    have h2 := ih (fun x hx => h x (by simp [hx]))
    simp only [List.map_cons, List.sum_cons]
    omega

/-- Claim C9.  The count that `updateCartCounter` writes is the sum of the
quantities of all line items.  For a cart of the data model (every quantity at
least 1) the badge is hidden if and only if that sum is 0 and shown otherwise, and
this is the state of the badge after every sequence of user actions in a fresh
session.  After clear the cart is empty, the count is 0 and the badge is hidden. -/
theorem C9_badge :
    (∀ p : Page, (updateCartCounter p).cartCounter = (p.cart.map LineItem.quantity).sum) ∧
    (∀ p : Page, (∀ x ∈ p.cart, 1 ≤ x.quantity) →
      ((updateCartCounter p).cartCounterDisplay = "none" ↔
        (p.cart.map LineItem.quantity).sum = 0) ∧
      ((updateCartCounter p).cartCounterDisplay = "inline-block" ↔
        (p.cart.map LineItem.quantity).sum ≠ 0)) ∧
    (∀ ops : List Op,
      (runOps ops freshPage).cartCounter =
        ((runOps ops freshPage).cart.map LineItem.quantity).sum ∧
      ((runOps ops freshPage).cartCounterDisplay = "none" ↔
        ((runOps ops freshPage).cart.map LineItem.quantity).sum = 0) ∧
      ((runOps ops freshPage).cartCounterDisplay = "inline-block" ↔
        ((runOps ops freshPage).cart.map LineItem.quantity).sum ≠ 0)) ∧
    (∀ p : Page, (clearCartClick p).cart = [] ∧ (clearCartClick p).cartCounter = 0 ∧
      (clearCartClick p).cartCounterDisplay = "none") := by
  have hdisp : ∀ p : Page, (∀ x ∈ p.cart, 1 ≤ x.quantity) →
      ((updateCartCounter p).cartCounterDisplay = "none" ↔
        (p.cart.map LineItem.quantity).sum = 0) ∧
      ((updateCartCounter p).cartCounterDisplay = "inline-block" ↔
        (p.cart.map LineItem.quantity).sum ≠ 0) := by
    intro p h
    have hnn := quantity_sum_nonneg p.cart h
    obtain ⟨h1, h2⟩ := updateCartCounter_display p
    constructor
    · rw [h1]
      omega
    · rw [h2]
      omega
  refine ⟨updateCartCounter_count, hdisp, ?_, ?_⟩
  · intro ops
    have hq : ∀ x ∈ (runOps ops freshPage).cart, 1 ≤ x.quantity :=
      runOps_quantities ops freshPage (by intro x hx; simp [freshPage] at hx)
    obtain ⟨q, hrun⟩ := runOps_rendered ops
    rw [hrun] at hq ⊢
    exact ⟨updateCartCounter_count _, hdisp _ hq⟩
  · intro p
    refine ⟨rfl, ?_, ?_⟩
    · simp [clearCartClick, saveAndRenderCart, renderCart, updateCartCounter]
    · simp [clearCartClick, saveAndRenderCart, renderCart, updateCartCounter]

/-! ## Whole numbers in binary64 -/

theorem log2Fuel_spec : ∀ (fuel n : Nat), 0 < n → n ≤ fuel →
    2 ^ log2Fuel fuel n ≤ n ∧ n < 2 ^ (log2Fuel fuel n + 1)
  | 0, n, h0, h => by omega
  | fuel + 1, n, h0, h => by
    by_cases h2 : n < 2
    · simp only [log2Fuel, h2, if_true]
      omega
    · obtain ⟨ih1, ih2⟩ := log2Fuel_spec fuel (n / 2) (by omega) (by omega)
      simp only [log2Fuel, h2, if_false]
      constructor
      · rw [pow_succ]
        omega
      · rw [pow_succ]
        omega

theorem floorLog2_spec (n : Nat) (h : 0 < n) :
    2 ^ floorLog2 n ≤ n ∧ n < 2 ^ (floorLog2 n + 1) :=
  log2Fuel_spec n n h (le_refl n)

theorem floorLog2_unique (n L : Nat) (h1 : 2 ^ L ≤ n) (h2 : n < 2 ^ (L + 1)) :
    floorLog2 n = L := by
  have hpos : 0 < n := lt_of_lt_of_le (by positivity) h1
  obtain ⟨s1, s2⟩ := floorLog2_spec n hpos
  have a : floorLog2 n < L + 1 :=
    (Nat.pow_lt_pow_iff_right (by decide : 1 < 2)).mp (lt_of_le_of_lt s1 h2)
  have b : L < floorLog2 n + 1 :=
    (Nat.pow_lt_pow_iff_right (by decide : 1 < 2)).mp (lt_of_le_of_lt h1 s2)
  omega

theorem floorLog2_mul_pow (n j : Nat) (h : 0 < n) :
    floorLog2 (n * 2 ^ j) = floorLog2 n + j := by
  obtain ⟨s1, s2⟩ := floorLog2_spec n h
  apply floorLog2_unique
  · rw [pow_add]
    exact Nat.mul_le_mul_right _ s1
  · rw [show floorLog2 n + j + 1 = (floorLog2 n + 1) + j by omega, pow_add]
    exact Nat.mul_lt_mul_of_pos_right s2 (by positivity)

theorem floorLog2_pow (j : Nat) : floorLog2 (2 ^ j) = j :=
  floorLog2_unique _ _ (le_refl _) (Nat.pow_lt_pow_right (by decide) (by omega))

theorem floorLog2Ratio_scaled (n j : Nat) (h : 0 < n) :
    floorLog2Ratio (n * 2 ^ j) (2 ^ j) = (floorLog2 n : Int) := by
  obtain ⟨s1, _⟩ := floorLog2_spec n h
  have hle : 2 ^ j * 2 ^ floorLog2 n ≤ n * 2 ^ j := by
    rw [Nat.mul_comm]
    exact Nat.mul_le_mul_right _ s1
  have e1 : floorLog2 n + j - j = floorLog2 n := by omega
  have e2 : j - (floorLog2 n + j) = 0 := by omega
  simp only [floorLog2Ratio, floorLog2_mul_pow n j h, floorLog2_pow, e1, e2, pow_zero,
    Nat.mul_one, hle, if_true]
  push_cast
  omega

theorem roundHalfEven_exact (q d : Nat) (hd : 0 < d) : roundHalfEven (q * d) d = q := by
  simp [roundHalfEven, Nat.mul_mod_left, hd, Nat.mul_div_cancel _ hd]

theorem ofRatio_scaled (n j : Nat) (h : n < 2 ^ 53) :
    F64.ofRatio false (n * 2 ^ j) (2 ^ j) = wholeF64 n := by
  by_cases h0 : n = 0
  · subst h0
    simp [F64.ofRatio, wholeF64]
  · have hpos : 0 < n := Nat.pos_of_ne_zero h0
    obtain ⟨s1, s2⟩ := floorLog2_spec n hpos
    have hL : floorLog2 n < 53 :=
      (Nat.pow_lt_pow_iff_right (by decide : 1 < 2)).mp (lt_of_le_of_lt s1 h)
    have hne : n * 2 ^ j ≠ 0 := Nat.mul_ne_zero h0 (by positivity)
    have hk : max ((floorLog2 n : Int) - 52) (-1074) = (floorLog2 n : Int) - 52 := by omega
    have hk1 : (-((floorLog2 n : Int) - 52)).toNat = 52 - floorLog2 n := by omega
    have hk2 : ((floorLog2 n : Int) - 52).toNat = 0 := by omega
    have hround : roundHalfEven (n * 2 ^ j * 2 ^ (52 - floorLog2 n)) (2 ^ j * 2 ^ 0) =
        n * 2 ^ (52 - floorLog2 n) := by
      have : n * 2 ^ j * 2 ^ (52 - floorLog2 n) = n * 2 ^ (52 - floorLog2 n) * (2 ^ j * 2 ^ 0) := by
        ring
      rw [this]
      exact roundHalfEven_exact _ _ (by positivity)
    have hlt : n * 2 ^ (52 - floorLog2 n) < 2 ^ 53 := by
      calc n * 2 ^ (52 - floorLog2 n) < 2 ^ (floorLog2 n + 1) * 2 ^ (52 - floorLog2 n) :=
            Nat.mul_lt_mul_of_pos_right s2 (by positivity)
        _ = 2 ^ 53 := by rw [← pow_add]; congr 1; omega
    have hm : n * 2 ^ (52 - floorLog2 n) ≠ 2 ^ 53 := hlt.ne
    have h971 : ¬ (971 : Int) < (floorLog2 n : Int) - 52 := by omega
    simp only [F64.ofRatio, hne, if_false, floorLog2Ratio_scaled n j hpos, hk, hk1, hk2, hround,
      hm, h971, wholeF64, h0]

theorem wholeF64_form (n : Nat) (h : n < 2 ^ 53) :
    ∃ J : Nat, wholeF64 n = .fin false (n * 2 ^ J) (-(J : Int)) := by
  by_cases h0 : n = 0
  · subst h0
    exact ⟨1074, by simp only [wholeF64, if_true, Nat.zero_mul]; rfl⟩
  · obtain ⟨s1, _⟩ := floorLog2_spec n (Nat.pos_of_ne_zero h0)
    have hL : floorLog2 n < 53 :=
      (Nat.pow_lt_pow_iff_right (by decide : 1 < 2)).mp (lt_of_le_of_lt s1 h)
    refine ⟨52 - floorLog2 n, ?_⟩
    have he : (floorLog2 n : Int) - 52 = -((52 - floorLog2 n : Nat) : Int) := by omega
    simp only [wholeF64, h0, if_false, he]

theorem ofInt_whole (n : Nat) (h : n < 2 ^ 53) : F64.ofInt (n : Int) = wholeF64 n := by
  have := ofRatio_scaled n 0 h
  simp only [pow_zero, Nat.mul_one] at this
  have hneg : decide ((n : Int) < 0) = false := by simp
  simp only [F64.ofInt, hneg, Int.natAbs_ofNat, this]

theorem whole_add (a b : Nat) (h : a + b < 2 ^ 53) :
    wholeF64 a + wholeF64 b = wholeF64 (a + b) := by
  obtain ⟨J1, h1⟩ := wholeF64_form a (by omega)
  obtain ⟨J2, h2⟩ := wholeF64_form b (by omega)
  rw [h1, h2]
  show F64.add _ _ = _
  have hmin : min (-(J1 : Int)) (-(J2 : Int)) = -((max J1 J2 : Nat) : Int) := by omega
  have t1 : (-(J1 : Int) - -((max J1 J2 : Nat) : Int)).toNat = max J1 J2 - J1 := by omega
  have t2 : (-(J2 : Int) - -((max J1 J2 : Nat) : Int)).toNat = max J1 J2 - J2 := by omega
  have t3 : (-((max J1 J2 : Nat) : Int)).toNat = 0 := by omega
  have t4 : (- -((max J1 J2 : Nat) : Int)).toNat = max J1 J2 := by omega
  have p1 : a * 2 ^ J1 * 2 ^ (max J1 J2 - J1) = a * 2 ^ max J1 J2 := by
    rw [Nat.mul_assoc, ← pow_add]
    congr 2
    omega
  have p2 : b * 2 ^ J2 * 2 ^ (max J1 J2 - J2) = b * 2 ^ max J1 J2 := by
    rw [Nat.mul_assoc, ← pow_add]
    congr 2
    omega
  have hsum : signedInt false (a * 2 ^ max J1 J2) + signedInt false (b * 2 ^ max J1 J2) =
      (((a + b) * 2 ^ max J1 J2 : Nat) : Int) := by
    simp only [signedInt, Bool.false_eq_true, if_false]
    push_cast
    ring
  simp only [F64.add, hmin, t1, t2, t3, t4, p1, p2, hsum, pow_zero, Nat.mul_one,
    Int.natAbs_ofNat, Bool.and_self]
  by_cases hz : a + b = 0
  · have ha : a = 0 := by omega
    have hb : b = 0 := by omega
    subst ha hb
    simp [wholeF64]
  · have hne : ¬ ((((a + b) * 2 ^ max J1 J2 : Nat) : Int) = 0) := by
      have : 0 < (a + b) * 2 ^ max J1 J2 := Nat.mul_pos (by omega) (by positivity)
      omega
    have hnn : decide ((((a + b) * 2 ^ max J1 J2 : Nat) : Int) < 0) = false := by
      rw [decide_eq_false_iff_not]
      omega
    simp only [hne, if_false, hnn]
    exact ofRatio_scaled (a + b) _ h

theorem whole_mul (a b : Nat) (ha : a < 2 ^ 53) (hb : b < 2 ^ 53) (h : a * b < 2 ^ 53) :
    wholeF64 a * wholeF64 b = wholeF64 (a * b) := by
  obtain ⟨J1, h1⟩ := wholeF64_form a ha
  obtain ⟨J2, h2⟩ := wholeF64_form b hb
  rw [h1, h2]
  show F64.mul _ _ = _
  have t1 : (-(J1 : Int) + -(J2 : Int)).toNat = 0 := by omega
  have t2 : (-(-(J1 : Int) + -(J2 : Int))).toNat = J1 + J2 := by omega
  have p : a * 2 ^ J1 * (b * 2 ^ J2) * 2 ^ 0 = a * b * 2 ^ (J1 + J2) := by
    rw [pow_add]
    ring
  simp only [F64.mul, t1, t2, p, Bool.xor_self]
  exact ofRatio_scaled (a * b) _ h

/-- A price that is a non-negative whole number below `2 ^ 53` has that number as
its binary64 value. -/
theorem toF64_whole (price : JsNum) (h : price = JsNum.ofInt (price.wholeValue : Int))
    (hlt : price.wholeValue < 2 ^ 53) : price.toF64 = wholeF64 price.wholeValue := by
  have hs := ofRatio_scaled price.wholeValue 0 hlt
  simp only [pow_zero, Nat.mul_one] at hs
  rw [h]
  simp only [JsNum.ofInt, JsNum.toF64, Dec.toF64, Dec.ofInt, Int.natAbs_ofNat]
  have hneg : decide ((price.wholeValue : Int) < 0) = false := by
    rw [decide_eq_false_iff_not]
    omega
  rw [hneg]
  exact hs

/-! ## C10: the grand total -/

/-- The loop of `renderCart` adds the subtotals, in the order of the cart, to the
start value of `total`. -/
theorem foldl_total (cart : List LineItem) :
    ∀ acc : List CartEntry × F64,
      (cart.foldl
        (fun acc item =>
          (acc.1 ++ [CartEntry.row item.image item.name
              (item.price.toF64 * F64.ofInt item.quantity).toFixed2 item.id item.quantity],
            acc.2 + item.price.toF64 * F64.ofInt item.quantity)) acc).2 =
      (cart.map (fun item => item.price.toF64 * F64.ofInt item.quantity)).foldl
        (fun a b => a + b) acc.2 := by
  induction cart with
  | nil => simp
  | cons item rest ih =>
    intro acc
    simp only [List.foldl_cons, List.map_cons]
    rw [ih]

/-- The value of `total` at the end of `renderCart` is the sum of the subtotals. -/
theorem renderBody_total (cart : List LineItem) : (renderBody cart).2 = sumOfSubtotals cart := by
  cases cart with
  | nil => rfl
  | cons item rest =>
    simp only [renderBody, List.length_cons, Nat.succ_ne_zero, if_false, renderItems,
      sumOfSubtotals]
    exact foldl_total _ _

/-- On a cart whose prices are non-negative whole numbers, the sum of the subtotals
in the arithmetic of Numbers, started at the whole number `acc`, is the exact sum
as long as that stays below `2 ^ 53`. -/
theorem foldl_whole :
    ∀ (cart : List LineItem) (acc : Nat),
      (∀ item ∈ cart, item.price = JsNum.ofInt (item.price.wholeValue : Int) ∧
        item.price.wholeValue < 2 ^ 53 ∧ 0 ≤ item.quantity ∧ item.quantity < 2 ^ 53) →
      (acc : Int) + exactTotal cart < 2 ^ 53 →
      (cart.map (fun item => item.price.toF64 * F64.ofInt item.quantity)).foldl
          (fun a b => a + b) (wholeF64 acc) =
        wholeF64 (acc + (exactTotal cart).toNat)
  | [], acc, _, _ => by simp [exactTotal]
  | item :: rest, acc, h, hsum => by
    obtain ⟨hp, hv, hq0, hq⟩ := h item (by simp)
    have hrest : ∀ x ∈ rest, x.price = JsNum.ofInt (x.price.wholeValue : Int) ∧
        x.price.wholeValue < 2 ^ 53 ∧ 0 ≤ x.quantity ∧ x.quantity < 2 ^ 53 :=
      fun x hx => h x (by simp [hx])
    have hnn : ∀ l : List LineItem, (∀ x ∈ l, 0 ≤ x.quantity) → 0 ≤ exactTotal l := by
      intro l hl
      induction l with
      | nil => simp [exactTotal]
      | cons y ys ih =>
        have h1 := hl y (by simp)
        have h2 := ih (fun x hx => hl x (by simp [hx]))
        have h3 : 0 ≤ (y.price.wholeValue : Int) * y.quantity :=
          Int.mul_nonneg (Int.ofNat_nonneg _) h1
        simp only [exactTotal, List.map_cons, List.sum_cons] at h2 ⊢
        omega
    have hrest0 : 0 ≤ exactTotal rest := hnn rest (fun x hx => (hrest x hx).2.2.1)
    have hcons : exactTotal (item :: rest) =
        (item.price.wholeValue : Int) * item.quantity + exactTotal rest := by
      simp [exactTotal]
    obtain ⟨q, hqe⟩ : ∃ q : Nat, item.quantity = (q : Int) := ⟨item.quantity.toNat, by omega⟩
    have hprod : ((item.price.wholeValue * q : Nat) : Int) =
        (item.price.wholeValue : Int) * item.quantity := by
      rw [hqe]
      push_cast
      rfl
    have hqlt : q < 2 ^ 53 := by omega
    have hplt : item.price.wholeValue * q < 2 ^ 53 := by omega
    have hstep : wholeF64 acc + item.price.toF64 * F64.ofInt item.quantity =
        wholeF64 (acc + item.price.wholeValue * q) := by
      rw [toF64_whole item.price hp hv, hqe, ofInt_whole q hqlt,
        whole_mul _ _ hv hqlt hplt, whole_add _ _ (by omega)]
    have ih := foldl_whole rest (acc + item.price.wholeValue * q) hrest (by omega)
    simp only [List.map_cons, List.foldl_cons, hstep, ih]
    congr 1
    omega

/-- Claim C10.  The total that `renderCart` computes is the sum over all line items,
taken in the order of the cart in the arithmetic of Numbers, of `price * quantity`
(0 for the empty cart), and the text of `#cart-total` is that sum written by
`toFixed(2)`; this is the state of the page after every sequence of add,
increment, decrement and clear in a fresh session.  Whenever the prices are
non-negative whole numbers and the exact sum stays below `2 ^ 53`, no rounding
takes place and the total is the exact sum.  Tacos at 50.00 added twice gives the
total 100.00; add Tacos (50.00), add Agua (20.00), decrement Tacos gives the total
20.00; Tacos and Agua together give 70.00; prices 0.1 and 0.2 give the Number
0.30000000000000004, shown as 0.30. -/
theorem C10_grand_total :
    (∀ cart : List LineItem, (renderBody cart).2 = sumOfSubtotals cart) ∧
    (renderBody []).2 = F64.ofInt 0 ∧
    (∀ cart : List LineItem,
      (∀ item ∈ cart, item.price = JsNum.ofInt (item.price.wholeValue : Int) ∧
        item.price.wholeValue < 2 ^ 53 ∧ 0 ≤ item.quantity ∧ item.quantity < 2 ^ 53) →
      exactTotal cart < 2 ^ 53 →
      (renderBody cart).2 = F64.ofInt (exactTotal cart)) ∧
    (∀ p : Page, (renderCart p).cartTotal = (sumOfSubtotals p.cart).toFixed2) ∧
    (∀ ops : List Op,
      (runOps ops freshPage).cartTotal =
        (sumOfSubtotals (runOps ops freshPage).cart).toFixed2) ∧
    (sumOfSubtotals (runOps [.add "Tacos" "Tacos" fifty "tacos.png",
        .add "Tacos" "Tacos" fifty "tacos.png"] freshPage).cart = F64.ofInt 100 ∧
      (runOps [.add "Tacos" "Tacos" fifty "tacos.png",
        .add "Tacos" "Tacos" fifty "tacos.png"] freshPage).cartTotal = "100.00") ∧
    (sumOfSubtotals (runOps [.add "Tacos" "Tacos" fifty "tacos.png",
        .add "Agua" "Agua" twenty "agua.png", .decrement "Tacos"] freshPage).cart =
          F64.ofInt 20 ∧
      (runOps [.add "Tacos" "Tacos" fifty "tacos.png",
        .add "Agua" "Agua" twenty "agua.png", .decrement "Tacos"] freshPage).cartTotal =
          "20.00") ∧
    (sumOfSubtotals (runOps [.add "Tacos" "Tacos" fifty "tacos.png",
        .add "Agua" "Agua" twenty "agua.png"] freshPage).cart = F64.ofInt 70 ∧
      (runOps [.add "Tacos" "Tacos" fifty "tacos.png",
        .add "Agua" "Agua" twenty "agua.png"] freshPage).cartTotal = "70.00") ∧
    (sumOfSubtotals (runOps [.add "A" "A" oneTenth "a.png",
        .add "B" "B" twoTenths "b.png"] freshPage).cart =
          .fin false 5404319552844596 (-54) ∧
      (runOps [.add "A" "A" oneTenth "a.png",
        .add "B" "B" twoTenths "b.png"] freshPage).cartTotal = "0.30") := by
  have hrender : ∀ p : Page, (renderCart p).cartTotal = (sumOfSubtotals p.cart).toFixed2 := by
    intro p
    show ((renderBody p.cart).2).toFixed2 = _
    rw [renderBody_total]
  refine ⟨renderBody_total, by decide, ?_, hrender, ?_, ⟨by decide, by decide⟩,
    ⟨by decide, by decide⟩, ⟨by decide, by decide⟩, ⟨by decide, by decide⟩⟩
  · intro cart h hsum
    have hnn : 0 ≤ exactTotal cart := by
      have : ∀ l : List LineItem, (∀ x ∈ l, 0 ≤ x.quantity) → 0 ≤ exactTotal l := by
        intro l hl
        induction l with
        | nil => simp [exactTotal]
        | cons y ys ih =>
          have h1 := hl y (by simp)
          have h2 := ih (fun x hx => hl x (by simp [hx]))
          have h3 : 0 ≤ (y.price.wholeValue : Int) * y.quantity :=
            Int.mul_nonneg (Int.ofNat_nonneg _) h1
          simp only [exactTotal, List.map_cons, List.sum_cons] at h2 ⊢
          omega
      exact this cart (fun x hx => (h x hx).2.2.1)
    have hfold := foldl_whole cart 0 h (by simpa using hsum)
    have hzero : (0 : F64) = wholeF64 0 := rfl
    rw [renderBody_total, sumOfSubtotals, hzero, hfold, Nat.zero_add,
      ← ofInt_whole _ (by omega)]
    congr 1
    omega
  · intro ops
    obtain ⟨q, hrun⟩ := runOps_rendered ops
    rw [hrun]
    exact hrender q

/-- Witness for C10: the cart with Tacos at 50 twice and Agua at 20 once has whole
prices, and its total is exactly 120. -/
theorem C10_grand_total_witness :
    (renderBody samplePage.cart).2 = F64.ofInt 120 :=
  C10_grand_total.2.2.1 samplePage.cart (by decide) (by decide)

/-! ## The round trip of `JSON.stringify` and `JSON.parse` -/

/-! ## Digits -/

theorem digitChar_facts : ∀ d, d < 10 →
    isDigit (digitChar d) = true ∧ (digitChar d).toNat - 48 = d ∧ (d ≠ 0 → digitChar d ≠ '0') := by
  decide

theorem isDigit_facts (c : Char) (h : isDigit c = true) :
    c ≠ '\x22' ∧ c ≠ '[' ∧ c ≠ '\x7b' ∧ c ≠ 'n' ∧ c ≠ 't' ∧ c ≠ 'f' ∧ c ≠ '-' ∧
    c ≠ ' ' ∧ c ≠ '\x09' ∧ c ≠ '\x0a' ∧ c ≠ '\x0d' := by
  simp only [isDigit, decide_eq_true_eq] at h
  refine ⟨?_, ?_, ?_, ?_, ?_, ?_, ?_, ?_, ?_, ?_, ?_⟩ <;>
  · rintro rfl
    revert h
    decide

theorem natDigitsFuel_spec : ∀ (fuel n : Nat), n < fuel →
    (∀ c ∈ natDigitsFuel fuel n, isDigit c = true) ∧
    (natDigitsFuel fuel n).foldl (fun v c => v * 10 + (c.toNat - 48)) 0 = n ∧
    ∃ c tl, natDigitsFuel fuel n = c :: tl ∧ (0 < n → c ≠ '0')
  | 0, n, h => by omega
  | fuel + 1, n, h => by
    by_cases h10 : n < 10
    · obtain ⟨h1, h2, h3⟩ := digitChar_facts n h10
      simp only [natDigitsFuel, h10, if_true]
      refine ⟨by simpa using h1, by simpa using h2, digitChar n, [], rfl, fun hn => h3 (by omega)⟩
    · obtain ⟨ih1, ih2, c, tl, ih3, ih4⟩ := natDigitsFuel_spec fuel (n / 10) (by omega)
      obtain ⟨h1, h2, _⟩ := digitChar_facts (n % 10) (Nat.mod_lt _ (by decide))
      simp only [natDigitsFuel, h10, if_false]
      refine ⟨?_, ?_, c, tl ++ [digitChar (n % 10)], by simp [ih3], fun _ => ih4 (by omega)⟩
      · intro x hx
        rcases List.mem_append.mp hx with hx | hx
        · exact ih1 x hx
        · simp only [List.mem_singleton] at hx
          rw [hx]
          exact h1
      · rw [List.foldl_append, ih2]
        simp only [List.foldl_cons, List.foldl_nil, h2]
        omega

theorem padDigits_spec : ∀ (w n : Nat),
    (∀ c ∈ padDigits w n, isDigit c = true) ∧
    (padDigits w n).foldl (fun v c => v * 10 + (c.toNat - 48)) 0 = n % 10 ^ w ∧
    (padDigits w n).length = w
  | 0, n => by simp [padDigits, Nat.mod_one]
  | w + 1, n => by
    obtain ⟨ih1, ih2, ih3⟩ := padDigits_spec w (n / 10)
    obtain ⟨h1, h2, _⟩ := digitChar_facts (n % 10) (Nat.mod_lt _ (by decide))
    simp only [padDigits]
    refine ⟨?_, ?_, by simp [ih3]⟩
    · intro x hx
      rcases List.mem_append.mp hx with hx | hx
      · exact ih1 x hx
      · simp only [List.mem_singleton] at hx
        rw [hx]
        exact h1
    · rw [List.foldl_append, ih2]
      simp only [List.foldl_cons, List.foldl_nil, h2]
      rw [pow_succ', Nat.mod_mul]
      ring

theorem readDigits_append (c : Char) (rest : List Char) (hc : isDigit c = false) :
    ∀ (xs : List Char), (∀ x ∈ xs, isDigit x = true) → ∀ v k,
      readDigits (xs ++ c :: rest) v k =
        (xs.foldl (fun v c => v * 10 + (c.toNat - 48)) v, k + xs.length, c :: rest)
  | [], _, v, k => by simp [readDigits, hc]
  | x :: xs, hx, v, k => by
    have hx1 : isDigit x = true := hx x (by simp)
    have ih := readDigits_append c rest hc xs (fun y hy => hx y (by simp [hy]))
      (v * 10 + (x.toNat - 48)) (k + 1)
    have hk : k + 1 + xs.length = k + (xs.length + 1) := by omega
    show readDigits (x :: (xs ++ c :: rest)) v k = _
    simp only [readDigits, hx1, if_true, ih, List.foldl_cons, List.length_cons, hk]

/-! ## Numbers -/

theorem Dec.norm_self (d : Dec) : Dec.norm d.scale d.mant = d := by
  obtain ⟨m, s, hc⟩ := d
  cases s with
  | zero => rfl
  | succ s =>
    have h : ¬ m % 10 = 0 := by
      rcases hc with h | h
      · exact absurd h (Nat.succ_ne_zero s)
      · exact h
    simp only [Dec.norm, h, dif_neg, not_false_eq_true]


theorem parseUnsigned_digits (negative : Bool) (m s : Nat) (c : Char) (rest : List Char)
    (hc : endsNumber c) :
    parseUnsigned negative
      (natDigits (m / 10 ^ s) ++
        ((if s = 0 then [] else '.' :: padDigits s (m % 10 ^ s)) ++ c :: rest)) =
      .ok (.fin (Dec.norm s (if negative then - (m : Int) else (m : Int))), c :: rest) := by
  obtain ⟨hcd, hcdot, hce, hcE⟩ := hc
  have hspec : (∀ c ∈ natDigits (m / 10 ^ s), isDigit c = true) ∧
      (natDigits (m / 10 ^ s)).foldl (fun v c => v * 10 + (c.toNat - 48)) 0 = m / 10 ^ s ∧
      ∃ c tl, natDigits (m / 10 ^ s) = c :: tl ∧ (0 < m / 10 ^ s → c ≠ '0') :=
    natDigitsFuel_spec (m / 10 ^ s + 1) (m / 10 ^ s) (by omega)
  obtain ⟨hd1, hd2, c0, tl, hd3, hd4⟩ := hspec
  obtain ⟨hp1, hp2, hp3⟩ := padDigits_spec s (m % 10 ^ s)
  -- the integer part
  have hint : ∀ (c1 : Char) (rest1 : List Char), isDigit c1 = false →
      readInt (natDigits (m / 10 ^ s) ++ c1 :: rest1) = .ok (m / 10 ^ s, c1 :: rest1) := by
    intro c1 rest1 hc1
    by_cases hz : m / 10 ^ s = 0
    · rw [hz]
      have : natDigits 0 = ['0'] := by decide
      simp [this, readInt]
    · have hrd := readDigits_append c1 rest1 hc1 (natDigits (m / 10 ^ s)) hd1 0 0
      have hc0 : c0 ≠ '0' := hd4 (by omega)
      have hc0d : isDigit c0 = true := hd1 c0 (by rw [hd3]; simp)
      rw [hd2] at hrd
      rw [hd3] at hrd ⊢
      simp only [List.cons_append] at hrd ⊢
      simp only [readInt, hc0, if_false, hc0d, if_true, hrd]
  have hexp : readExp (c :: rest) = .ok (0, c :: rest) := by
    simp [readExp, hce, hcE]
  have hval : decimalValue negative (m / 10 ^ s) (m % 10 ^ s) s 0 =
      Dec.norm s (if negative then - (m : Int) else (m : Int)) := by
    have hm : m / 10 ^ s * 10 ^ s + m % 10 ^ s = m := Nat.div_add_mod' m (10 ^ s)
    show Dec.norm s (_ * 10 ^ 0) = _
    rw [hm]
    simp
  by_cases hs : s = 0
  · subst hs
    simp only [if_true, List.nil_append, parseUnsigned]
    rw [hint c rest hcd]
    have hfrac : readFrac (c :: rest) = .ok (0, 0, c :: rest) := by
      simp only [readFrac, hcdot, if_false]
    have hmod : m % 10 ^ 0 = 0 := by simp [Nat.mod_one]
    rw [hmod] at hval
    simp only [hfrac, hexp, hval]
  · simp only [hs, if_false, parseUnsigned, List.cons_append]
    rw [hint '.' _ (by decide)]
    have hrd := readDigits_append c rest hcd (padDigits s (m % 10 ^ s)) hp1 0 0
    have hfrac : readFrac ('.' :: (padDigits s (m % 10 ^ s) ++ c :: rest)) =
        .ok (m % 10 ^ s, s, c :: rest) := by
      simp only [readFrac, hrd, hp3, Nat.zero_add, hs, if_false, hp2, Nat.mod_mod, if_true]
    simp only [hfrac, hexp, hval]

theorem endsNumber_comma : endsNumber ',' := by
  refine ⟨by decide, by decide, by decide, by decide⟩

theorem endsNumber_brace : endsNumber '\x7d' := by
  refine ⟨by decide, by decide, by decide, by decide⟩

/-- The head of the text of a finite number is a minus sign or a digit. -/
theorem natDigits_head (n : Nat) : ∃ c tl, natDigits n = c :: tl ∧ isDigit c = true := by
  obtain ⟨h1, _, c, tl, h3, _⟩ := natDigitsFuel_spec (n + 1) n (by omega)
  exact ⟨c, tl, h3, h1 c (by rw [h3]; simp)⟩

theorem parseNumber_toText (d : Dec) (c : Char) (rest : List Char) (hc : endsNumber c) :
    parseNumber (d.toText ++ c :: rest) = .ok (.fin d, c :: rest) := by
  have key := fun neg => parseUnsigned_digits neg d.mant.natAbs d.scale c rest hc
  obtain ⟨c0, tl, hhead, hdig⟩ := natDigits_head (d.mant.natAbs / 10 ^ d.scale)
  by_cases hneg : d.mant < 0
  · have hm : - ((d.mant.natAbs : Nat) : Int) = d.mant := by omega
    have := key true
    simp only [if_true, hm, Dec.norm_self] at this
    simp only [Dec.toText, hneg, if_true, List.append_assoc, List.cons_append, List.nil_append,
      parseNumber, this]
  · have hm : ((d.mant.natAbs : Nat) : Int) = d.mant := by omega
    have := key false
    simp only [Bool.false_eq_true, if_false, hm, Dec.norm_self] at this
    have hne : c0 ≠ '-' := (isDigit_facts c0 hdig).2.2.2.2.2.2.1
    simp only [Dec.toText, hneg, if_false, List.nil_append, List.append_assoc]
    rw [hhead] at this ⊢
    simp only [List.cons_append] at this ⊢
    simp only [parseNumber, hne, if_false, this]

theorem skipWs_cons (c : Char) (cs : List Char)
    (h : c ≠ ' ' ∧ c ≠ '\x09' ∧ c ≠ '\x0a' ∧ c ≠ '\x0d') : skipWs (c :: cs) = c :: cs := by
  simp [skipWs, h.1, h.2.1, h.2.2.1, h.2.2.2]

theorem parseValue_number (fuel : Nat) (d : Dec) (c : Char) (rest : List Char)
    (hc : endsNumber c) :
    parseValue (fuel + 1) (d.toText ++ c :: rest) = .ok (.num (.fin d), c :: rest) := by
  have hnum := parseNumber_toText d c rest hc
  have hhead : ∃ c0 tl, d.toText = c0 :: tl ∧ (c0 = '-' ∨ isDigit c0 = true) := by
    obtain ⟨c0, tl, hh, hdig⟩ := natDigits_head (d.mant.natAbs / 10 ^ d.scale)
    by_cases hneg : d.mant < 0
    · exact ⟨'-', _, by simp only [Dec.toText, hneg, if_true, List.cons_append, List.nil_append, List.append_assoc]; rfl, Or.inl rfl⟩
    · refine ⟨c0, tl ++ (if d.scale = 0 then []
          else '.' :: padDigits d.scale (d.mant.natAbs % 10 ^ d.scale)), ?_, Or.inr hdig⟩
      simp only [Dec.toText, hneg, if_false, List.nil_append, hh, List.cons_append]
  obtain ⟨c0, tl, hh, hc0⟩ := hhead
  rw [hh] at hnum ⊢
  simp only [List.cons_append] at hnum ⊢
  have hfacts : c0 ≠ '\x22' ∧ c0 ≠ '[' ∧ c0 ≠ '\x7b' ∧ c0 ≠ 'n' ∧ c0 ≠ 't' ∧ c0 ≠ 'f' ∧
      c0 ≠ ' ' ∧ c0 ≠ '\x09' ∧ c0 ≠ '\x0a' ∧ c0 ≠ '\x0d' := by
    rcases hc0 with rfl | hdig
    · decide
    · obtain ⟨h1, h2, h3, h4, h5, h6, _, h8, h9, h10, h11⟩ := isDigit_facts c0 hdig
      exact ⟨h1, h2, h3, h4, h5, h6, h8, h9, h10, h11⟩
  obtain ⟨h1, h2, h3, h4, h5, h6, h8, h9, h10, h11⟩ := hfacts
  simp only [parseValue, skipWs_cons c0 _ ⟨h8, h9, h10, h11⟩, h1, h2, h3, h4, h5, h6, if_false,
    hnum]

/-! ## Strings -/

theorem unicodeEscape_control : ∀ n, n < 32 →
    unicodeEscape '0' '0' (hexDigit (n / 16)) (hexDigit (n % 16)) = some (Char.ofNat n) := by
  decide

theorem parseString_quote (rest acc : List Char) :
    parseString ('\x22' :: rest) acc = .ok (String.mk acc, rest) := by
  rw [parseString.eq_def]
  simp

theorem parseString_simple (rest acc : List Char) (e ch : Char) (he : e ≠ 'u')
    (h : simpleEscape e = some ch) :
    parseString ('\x5c' :: e :: rest) acc = parseString rest (acc ++ [ch]) := by
  rw [parseString.eq_def]
  simp [h, he]

theorem parseString_unicode (rest acc : List Char) (a b c d ch : Char)
    (h : unicodeEscape a b c d = some ch) :
    parseString ('\x5c' :: 'u' :: a :: b :: c :: d :: rest) acc =
      parseString rest (acc ++ [ch]) := by
  rw [parseString.eq_def]
  simp [h]

theorem parseString_plain (rest acc : List Char) (c : Char) (h1 : c ≠ '\x22') (h2 : c ≠ '\x5c')
    (h3 : ¬ c.toNat < 32) : parseString (c :: rest) acc = parseString rest (acc ++ [c]) := by
  rw [parseString.eq_def]
  simp [h1, h2, h3]

theorem parseString_escapeChars (rest : List Char) : ∀ (s acc : List Char),
    parseString (escapeChars s ++ '\x22' :: rest) acc = .ok (String.mk (acc ++ s), rest)
  | [], acc => by simp [escapeChars, parseString_quote]
  | c :: cs, acc => by
    have ih := parseString_escapeChars rest cs (acc ++ [c])
    have hacc : acc ++ [c] ++ cs = acc ++ c :: cs := by simp
    rw [hacc] at ih
    simp only [escapeChars, escapeChar]
    split_ifs with h1 h2 h3 h4 h5 h6 h7 h8
    · subst h1
      rw [← ih]
      exact parseString_simple _ _ _ _ (by decide) (by decide)
    · subst h2
      rw [← ih]
      exact parseString_simple _ _ _ _ (by decide) (by decide)
    · subst h3
      rw [← ih]
      exact parseString_simple _ _ _ _ (by decide) (by decide)
    · subst h4
      rw [← ih]
      exact parseString_simple _ _ _ _ (by decide) (by decide)
    · subst h5
      rw [← ih]
      exact parseString_simple _ _ _ _ (by decide) (by decide)
    · subst h6
      rw [← ih]
      exact parseString_simple _ _ _ _ (by decide) (by decide)
    · subst h7
      rw [← ih]
      exact parseString_simple _ _ _ _ (by decide) (by decide)
    · have hu := unicodeEscape_control c.toNat h8
      rw [Char.ofNat_toNat] at hu
      rw [← ih]
      exact parseString_unicode _ _ _ _ _ _ _ hu
    · rw [← ih]
      exact parseString_plain _ _ _ h1 h2 h8

theorem parseValue_string (fuel : Nat) (s : String) (rest : List Char) :
    parseValue (fuel + 1) (quoteJSON s ++ rest) = .ok (.str s, rest) := by
  have h := parseString_escapeChars rest s.data []
  simp only [List.nil_append] at h
  simp [parseValue, quoteJSON, skipWs, h]

theorem parseValue_null (fuel : Nat) (rest : List Char) :
    parseValue (fuel + 1) ('n' :: 'u' :: 'l' :: 'l' :: rest) = .ok (.null, rest) := by
  simp [parseValue, skipWs, dropLiteral]


/-! ## Objects and arrays -/

theorem parseMembers_member (fuel : Nat) (k : String) (vtext : List Char) (v : JsVal) (d : Char)
    (rest : List Char) (acc : List (String × JsVal))
    (hv : parseValue fuel (vtext ++ d :: rest) = .ok (v, d :: rest))
    (hd : d = ',' ∨ d = '\x7d') :
    parseMembers (fuel + 1) (quoteJSON k ++ ':' :: (vtext ++ d :: rest)) acc =
      if d = ',' then parseMembers fuel rest (setProp k v acc)
      else .ok (.obj (setProp k v acc), rest) := by
  have hk := parseString_escapeChars (':' :: (vtext ++ d :: rest)) k.data []
  simp only [List.nil_append] at hk
  have hws : skipWs (d :: rest) = d :: rest := by
    rcases hd with rfl | rfl <;> simp [skipWs]
  rw [parseMembers]
  simp only [quoteJSON, List.cons_append, List.append_assoc, List.nil_append]
  rw [skipWs_cons _ _ (by decide)]
  simp only [if_true, hk]
  rw [skipWs_cons _ _ (by decide)]
  simp only [if_true, hv, hws]
  rcases hd with rfl | rfl
  · simp
  · simp

theorem parseValue_price (fuel : Nat) (price : JsNum) (rest : List Char) :
    parseValue (fuel + 1) (price.toJSON ++ ',' :: rest) = .ok (storedPrice price, ',' :: rest) := by
  cases price with
  | fin d => exact parseValue_number fuel d ',' rest endsNumber_comma
  | nan => exact parseValue_null fuel _
  | inf negative => exact parseValue_null fuel _

theorem stringify_item (item : LineItem) :
    stringifyValue (encodeItem item) =
      '\x7b' :: (quoteJSON "id" ++ ':' :: (quoteJSON item.id ++ ',' ::
        (quoteJSON "name" ++ ':' :: (quoteJSON item.name ++ ',' ::
        (quoteJSON "price" ++ ':' :: (item.price.toJSON ++ ',' ::
        (quoteJSON "image" ++ ':' :: (quoteJSON item.image ++ ',' ::
        (quoteJSON "quantity" ++ ':' :: ((Dec.ofInt item.quantity).toText ++
          ['\x7d'])))))))))) := by
  simp [encodeItem, stringifyValue, stringifyMembers, JsNum.toJSON, JsNum.ofInt]

theorem parseValue_item (fuel : Nat) (item : LineItem) (rest : List Char) :
    parseValue (fuel + 7) (stringifyValue (encodeItem item) ++ rest) =
      .ok (storedItem item, rest) := by
  rw [stringify_item]
  simp only [List.cons_append, List.append_assoc, List.nil_append]
  have hq := parseValue_number fuel (Dec.ofInt item.quantity) '\x7d' rest endsNumber_brace
  have m5 := parseMembers_member (fuel + 1) "quantity" _ _ '\x7d' rest
    [("id", .str item.id), ("name", .str item.name), ("price", storedPrice item.price),
      ("image", .str item.image)] hq (Or.inr rfl)
  have m4 := fun r acc => parseMembers_member (fuel + 2) "image" (quoteJSON item.image) _ ','
    r acc (parseValue_string (fuel + 1) item.image _) (Or.inl rfl)
  have m3 := fun r acc => parseMembers_member (fuel + 3) "price" item.price.toJSON _ ','
    r acc (parseValue_price (fuel + 2) item.price _) (Or.inl rfl)
  have m2 := fun r acc => parseMembers_member (fuel + 4) "name" (quoteJSON item.name) _ ','
    r acc (parseValue_string (fuel + 3) item.name _) (Or.inl rfl)
  have m1 := fun r acc => parseMembers_member (fuel + 5) "id" (quoteJSON item.id) _ ','
    r acc (parseValue_string (fuel + 4) item.id _) (Or.inl rfl)
  rw [parseValue]
  rw [skipWs_cons _ _ (by decide)]
  simp only [show ¬ ('\x7b' = '\x22') by decide, show ¬ ('\x7b' = '[') by decide, if_true, if_false]
  simp only [quoteJSON, List.cons_append, List.append_assoc, List.nil_append, if_true,
    show ¬ ('\x7d' = ',') by decide, if_false] at m1 m2 m3 m4 m5 ⊢
  rw [skipWs_cons _ _ (by decide)]
  simp only [show ¬ ('\x22' = '\x7d') by decide, if_false]
  rw [m1, m2, m3, m4]
  simp only [setProp, show ¬ ("id" = "name") by decide, show ¬ ("id" = "price") by decide,
    show ¬ ("name" = "price") by decide, show ¬ ("id" = "image") by decide,
    show ¬ ("name" = "image") by decide, show ¬ ("price" = "image") by decide, if_false]
  rw [m5]
  simp only [setProp, show ¬ ("id" = "quantity") by decide, show ¬ ("name" = "quantity") by decide,
    show ¬ ("price" = "quantity") by decide, show ¬ ("image" = "quantity") by decide, if_false,
    storedItem, JsNum.ofInt]

theorem stringifyElements_cons_cons (x y : JsVal) (ys : List JsVal) :
    stringifyElements (x :: y :: ys) = stringifyValue x ++ ',' :: stringifyElements (y :: ys) := by
  rw [stringifyElements]

theorem stringifyElements_single (x : JsVal) : stringifyElements [x] = stringifyValue x := by
  rw [stringifyElements]

theorem parseElements_items (rest : List Char) :
    ∀ (items : List LineItem) (item : LineItem) (fuel : Nat) (acc : List JsVal),
      items.length + 7 ≤ fuel →
      parseElements (fuel + 1)
          (stringifyElements ((item :: items).map encodeItem) ++ ']' :: rest) acc =
        .ok (.arr (acc ++ (item :: items).map storedItem), rest)
  | [], item, fuel, acc, h => by
    obtain ⟨k, rfl⟩ : ∃ k, fuel = k + 7 := ⟨fuel - 7, by omega⟩
    simp only [List.map_cons, List.map_nil, stringifyElements_single]
    rw [parseElements, parseValue_item]
    simp only []
    rw [skipWs_cons _ _ (by decide)]
    simp only [show ¬ (']' = ',') by decide, if_false, if_true]
  | y :: ys, item, fuel, acc, h => by
    simp only [List.length_cons] at h
    obtain ⟨k, rfl⟩ : ∃ k, fuel = k + 7 := ⟨fuel - 7, by omega⟩
    have ih := parseElements_items rest ys y (k + 6) (acc ++ [storedItem item]) (by omega)
    simp only [List.map_cons, stringifyElements_cons_cons, List.append_assoc, List.cons_append]
    rw [parseElements, parseValue_item]
    simp only []
    rw [skipWs_cons _ _ (by decide)]
    simp only [if_true]
    simp only [List.map_cons] at ih
    rw [ih]
    simp

theorem item_text_length (item : LineItem) : 6 ≤ (stringifyValue (encodeItem item)).length := by
  rw [stringify_item]
  simp only [List.length_cons, List.length_append]
  omega

theorem elements_text_length :
    ∀ (items : List LineItem) (item : LineItem),
      items.length + 6 ≤ (stringifyElements ((item :: items).map encodeItem)).length
  | [], item => by
    simp only [List.map_cons, List.map_nil, stringifyElements_single, List.length_nil]
    have := item_text_length item
    omega
  | y :: ys, item => by
    have ih := elements_text_length ys y
    have := item_text_length item
    simp only [List.map_cons, stringifyElements_cons_cons, List.length_append, List.length_cons] at ih ⊢
    omega

theorem parseValue_cart (cart : List LineItem) (rest : List Char) (fuel : Nat)
    (h : cart.length + 7 ≤ fuel) :
    parseValue (fuel + 1) (stringifyValue (encodeCart cart) ++ rest) =
      .ok (.arr (cart.map storedItem), rest) := by
  cases cart with
  | nil =>
    simp [encodeCart, stringifyValue, stringifyElements, parseValue, skipWs]
  | cons item items =>
    simp only [List.length_cons] at h
    obtain ⟨k, rfl⟩ : ∃ k, fuel = k + 1 := ⟨fuel - 1, by omega⟩
    have hel := parseElements_items rest items item k [] (by omega)
    obtain ⟨tl, htl⟩ : ∃ tl, stringifyElements ((item :: items).map encodeItem) = '\x7b' :: tl := by
      cases items with
      | nil => exact ⟨_, by rw [List.map_cons, List.map_nil, stringifyElements_single, stringify_item]⟩
      | cons y ys =>
        exact ⟨_, by rw [List.map_cons, List.map_cons, stringifyElements_cons_cons, stringify_item]; rfl⟩
    simp only [encodeCart, stringifyValue, List.cons_append, List.append_assoc, List.nil_append]
    rw [parseValue, skipWs_cons _ _ (by decide)]
    simp only [show ¬ ('[' = '\x22') by decide, if_false, if_true]
    rw [htl] at hel ⊢
    simp only [List.cons_append] at hel ⊢
    rw [skipWs_cons _ _ (by decide)]
    simp only [show ¬ ('\x7b' = ']') by decide, if_false, hel, List.nil_append]

theorem parse_stringify_cart (cart : List LineItem) :
    JSON.parse (JSON.stringify (encodeCart cart)) = .ok (.arr (cart.map storedItem)) := by
  have hlen : cart.length + 7 ≤ (stringifyValue (encodeCart cart)).length ∨ cart = [] := by
    cases cart with
    | nil => exact Or.inr rfl
    | cons item items =>
      left
      have := elements_text_length items item
      simp only [encodeCart, stringifyValue, List.length_cons, List.length_append, List.length_nil]
      omega
  rcases hlen with hlen | rfl
  · have h := parseValue_cart cart [] _ hlen
    simp only [List.append_nil] at h
    simp only [JSON.parse, JSON.stringify, h, skipWs, if_true]
  · rfl

/-! ## The stored cart -/

theorem getItem_setItem (key value : String) :
    ∀ storage : List (String × String), getItem key (setItem key value storage) = some value
  | [] => by simp [setItem, getItem]
  | (k, v) :: rest => by
    by_cases h : k = key
    · simp [setItem, getItem, h]
    · simp [setItem, getItem, h, getItem_setItem key value rest]

theorem storedItem_finite (item : LineItem) (h : item.price.isFinite = true) :
    storedItem item = encodeItem item := by
  simp [storedItem, encodeItem, storedPrice, h]

theorem decodeItem_encodeItem (item : LineItem) : decodeItem (encodeItem item) = some item := by
  simp [decodeItem, encodeItem, getProp, JsNum.ofInt, Dec.ofInt]

theorem decodeCart_encodeCart (cart : List LineItem) : decodeCart (encodeCart cart) = some cart := by
  simp only [decodeCart, encodeCart]
  induction cart with
  | nil => rfl
  | cons item rest ih =>
    simp only [List.map_cons, decodeItems, decodeItem_encodeItem, ih]

theorem loadCart_saved (p : Page) :
    loadCart (saveAndRenderCart p).sessionStorage = .ok (.arr (p.cart.map storedItem)) := by
  have hstore : (saveAndRenderCart p).sessionStorage =
      setItem "cart" (JSON.stringify (encodeCart p.cart)) p.sessionStorage := rfl
  simp only [loadCart, hstore, getItem_setItem, Option.getD_some, parse_stringify_cart,
    JsVal.truthy, if_true]


/-! ## C1: the start of the script -/

/-- Counterexample to claim C1 as stated.  With the text `not-json` stored under
the key `cart`, `JSON.parse` raises a `SyntaxError`; nothing catches it, so the
`DOMContentLoaded` listener ends with that exception instead of an empty cart. -/
theorem C1_not_json_raises :
    JSON.parse "not-json" = .error .syntaxError ∧
    loadCart [("cart", "not-json")] = .error .syntaxError ∧
    domContentLoaded [("cart", "not-json")] = .raised .syntaxError ∧
    ∀ p : Page, domContentLoaded [("cart", "not-json")] ≠ .running p := by
  refine ⟨rfl, rfl, rfl, ?_⟩
  intro p h
  have h1 : domContentLoaded [("cart", "not-json")] = .raised .syntaxError := rfl
  rw [h1] at h
  cases h

/-- Claim C1, amended.  When no value is stored under the key `cart`, the start of
the script completes without an exception and the cart in memory is the empty
sequence.  When the stored value is a text that is not valid JSON, `JSON.parse`
raises its `SyntaxError`, the script does not catch it, and the start of the script
ends with that exception: no cart is set up. -/
theorem C1_start_of_script :
    (∀ storage : List (String × String), getItem "cart" storage = none →
      loadCart storage = .ok (.arr []) ∧
      domContentLoaded storage = .running (renderCart ⟨[], storage, [], "", 0, "", none⟩) ∧
      (renderCart ⟨[], storage, [], "", 0, "", none⟩).cart = []) ∧
    (∀ (storage : List (String × String)) (text : String) (e : JsError),
      getItem "cart" storage = some text → JSON.parse text = .error e →
      loadCart storage = .error e ∧ domContentLoaded storage = .raised e) := by
  constructor
  · intro storage h
    have hparse : JSON.parse "null" = .ok .null := rfl
    have hload : loadCart storage = .ok (.arr []) := by
      simp only [loadCart, h, Option.getD_none, hparse, JsVal.truthy]
      rfl
    refine ⟨hload, ?_, rfl⟩
    simp only [domContentLoaded, hload, decodeCart, decodeItems]
  · intro storage text e h herr
    have hload : loadCart storage = .error e := by
      simp only [loadCart, h, Option.getD_some, herr]
    exact ⟨hload, by simp only [domContentLoaded, hload]⟩

/-- Witness for C1: a store without the key `cart`, and a store with the text
`not-json` under it. -/
theorem C1_start_of_script_witness :
    domContentLoaded [] = .running (renderCart ⟨[], [], [], "", 0, "", none⟩) ∧
    domContentLoaded [("cart", "not-json")] = .raised .syntaxError :=
  ⟨(C1_start_of_script.1 [] rfl).2.1,
    (C1_start_of_script.2 [("cart", "not-json")] "not-json" .syntaxError rfl rfl).2⟩

/-! ## C8: the round trip through the store -/

/-- Counterexample to claim C8 as stated.  A cart with an item whose price is
`Infinity` is written with `"price":null`, so what the start of the script loads is
not the cart that was saved. -/
theorem C8_infinite_price_not_restored :
    loadCart (saveAndRenderCart infinityPage).sessionStorage =
      .ok (.arr [.obj [("id", .str "Tacos"), ("name", .str "Tacos"), ("price", .null),
        ("image", .str "tacos.png"), ("quantity", .num (JsNum.ofInt 1))]]) ∧
    loadCart (saveAndRenderCart infinityPage).sessionStorage ≠
      .ok (encodeCart infinityPage.cart) := by
  constructor
  · rw [loadCart_saved]
    rfl
  · rw [loadCart_saved]
    intro h
    simp [infinityPage, storedItem, storedPrice, JsNum.isFinite, encodeCart, encodeItem] at h

/-- Claim C8, amended.  For every cart whose prices are all finite Numbers, writing
it to the store as `saveAndRenderCart` does and loading it as the start of the
script does gives back an identical cart: the loaded array is the saved one, and the
script starts with the same line items in the same order (the empty cart reloads as
the empty cart).  For every cart whatsoever the loaded array has the same ids in the
same order and the same quantities; a price that is `NaN` or an infinity is loaded
as `null`. -/
theorem C8_round_trip :
    (∀ p : Page, (∀ x ∈ p.cart, x.price.isFinite = true) →
      loadCart (saveAndRenderCart p).sessionStorage = .ok (encodeCart p.cart) ∧
      domContentLoaded (saveAndRenderCart p).sessionStorage =
        .running (renderCart ⟨p.cart, (saveAndRenderCart p).sessionStorage, [], "", 0, "", none⟩)) ∧
    (∀ p : Page, p.cart = [] →
      loadCart (saveAndRenderCart p).sessionStorage = .ok (.arr [])) ∧
    (∀ p : Page, ∃ items : List JsVal,
      loadCart (saveAndRenderCart p).sessionStorage = .ok (.arr items) ∧
      items.map (JsVal.prop "id") = p.cart.map (fun x => some (.str x.id)) ∧
      items.map (JsVal.prop "quantity") =
        p.cart.map (fun x => some (.num (JsNum.ofInt x.quantity)))) := by
  refine ⟨?_, ?_, ?_⟩
  · intro p h
    have hmap : p.cart.map storedItem = p.cart.map encodeItem :=
      List.map_congr_left (fun x hx => storedItem_finite x (h x hx))
    have hload : loadCart (saveAndRenderCart p).sessionStorage = .ok (encodeCart p.cart) := by
      rw [loadCart_saved, hmap]
      rfl
    refine ⟨hload, ?_⟩
    simp only [domContentLoaded, hload, decodeCart_encodeCart]
  · intro p h
    rw [loadCart_saved, h]
    rfl
  · intro p
    refine ⟨p.cart.map storedItem, loadCart_saved p, ?_, ?_⟩
    · rw [List.map_map]
      apply List.map_congr_left
      intro x _
      simp [storedItem, JsVal.prop, getProp]
    · rw [List.map_map]
      apply List.map_congr_left
      intro x _
      simp [storedItem, JsVal.prop, getProp]

/-- Witness for C8: the cart with Tacos twice and Agua once is loaded as it was
saved. -/
theorem C8_round_trip_witness :
    loadCart (saveAndRenderCart samplePage).sessionStorage = .ok (encodeCart samplePage.cart) :=
  (C8_round_trip.1 samplePage (by decide)).1

/-! ## Instances of the theorems on the sample cart -/

/-- Witness for C2: on the cart with Tacos twice and Agua once, adding Tacos raises
the first quantity, and adding Pan appends a new item. -/
theorem C2_addToCart_witness :
    (∃ before item after, samplePage.cart = before ++ item :: after ∧
      (∀ x ∈ before, x.id ≠ "Tacos") ∧ item.id = "Tacos" ∧
      (addToCart "Tacos" "Tacos" fifty "tacos.png" samplePage).cart =
        before ++ { item with quantity := item.quantity + 1 } :: after ∧
      (addToCart "Tacos" "Tacos" fifty "tacos.png" samplePage).cart.length =
        samplePage.cart.length) ∧
    (addToCart "Pan" "Pan" twenty "pan.png" samplePage).cart =
      samplePage.cart ++ [⟨"Pan", "Pan", twenty, "pan.png", 1⟩] :=
  ⟨(C2_addToCart samplePage "Tacos" "Tacos" fifty "tacos.png").1 (by decide),
    (C2_addToCart samplePage "Pan" "Pan" twenty "pan.png").2 (by decide)⟩

/-- Witness for C4: the quantities stay at least 1 when Agua is decreased on the
sample cart. -/
theorem C4_quantity_invariant_witness :
    ∀ x ∈ ((Op.decrement "Agua").run samplePage).cart, 1 ≤ x.quantity :=
  C4_quantity_invariant.2.1 (Op.decrement "Agua") samplePage (by decide)

/-- Witness for C5: the ids stay distinct when Pan is added to the sample cart, and
adding Tacos again leaves the sequence of ids as it is. -/
theorem C5_unique_ids_witness :
    (((Op.add "Pan" "Pan" twenty "pan.png").run samplePage).cart.map LineItem.id).Nodup ∧
    ((Op.add "Tacos" "Tacos" fifty "tacos.png").run samplePage).cart.map LineItem.id =
      samplePage.cart.map LineItem.id :=
  ⟨C5_unique_ids.2.1 (Op.add "Pan" "Pan" twenty "pan.png") samplePage (by decide),
    C5_unique_ids.2.2.2.2 "Tacos" "Tacos" fifty "tacos.png" samplePage (by decide)⟩

/-- Witness for C7: the sample cart has no item Pan, so increasing or decreasing Pan
changes nothing. -/
theorem C7_absent_id_noop_witness :
    (Op.increment "Pan").run samplePage = samplePage ∧
    (Op.decrement "Pan").run samplePage = samplePage :=
  C7_absent_id_noop.1 samplePage "Pan" (by decide)

/-- Witness for C9: the sample cart has quantities 2 and 1, so the badge is hidden
exactly when their sum is 0. -/
theorem C9_badge_witness :
    ((updateCartCounter samplePage).cartCounterDisplay = "none" ↔
      (samplePage.cart.map LineItem.quantity).sum = 0) ∧
    ((updateCartCounter samplePage).cartCounterDisplay = "inline-block" ↔
      (samplePage.cart.map LineItem.quantity).sum ≠ 0) :=
  C9_badge.2.1 samplePage (by decide)

end CartJs
